import Mathlib

/-!
Verification development for the light-network optimization pipeline
(artnet_optimizer.py, power_optimizer.py).

Embedding conventions:
* Node coordinates are rationals (`ℚ × ℚ × ℚ`); the Python code stores float
  tuples and keys dictionaries by them.  All inputs appearing in the claims
  are exact (integer-valued) coordinates, so rationals model them faithfully.
* Euclidean distances and `atan2` bearings are floating point in the source;
  every property settled here is independent of the concrete metric, so the
  distance (and, where needed, the bearing) is an explicit oracle parameter
  `d : Node → Node → ℚ` rather than a hard-coded formula.
* Python dictionaries are insertion-ordered association lists (`setA` updates
  in place or appends, exactly like `dict.__setitem__`); Python `set`s of
  hashable tuples are modelled by first-occurrence deduplicated lists
  (`pyDedup`); Python's stable `sorted` is modelled by `stableSort`.
* Fallible operations (KeyError on `d[k] += 1` for a missing key, ValueError
  on `max()` of an empty sequence, ZeroDivisionError, UnboundLocalError on a
  name read before assignment, TypeError on subscripting None) are modelled
  with `Except PyError`.
-/

namespace LightNet

abbrev Node := ℚ × ℚ × ℚ

abbrev Edge := Node × Node

/-- Runtime errors raised by the Python code paths that are modelled here. -/
inductive PyError where
  | unboundLocal
  | keyError
  | valueError
  | zeroDivision
  | typeError
deriving DecidableEq

/-! ### Python container primitives -/

/-- First-occurrence deduplication, the iteration semantics of `set(xs)` /
`dict.fromkeys(xs)` for the deterministic orders fixed in this embedding. -/
def pyDedupAux {α : Type} [DecidableEq α] (seen : List α) : List α → List α
  | [] => []
  | x :: t => if x ∈ seen then pyDedupAux seen t else x :: pyDedupAux (x :: seen) t

def pyDedup {α : Type} [DecidableEq α] (l : List α) : List α :=
  pyDedupAux [] l

/-- Lookup in an insertion-ordered association list (`dict.get`). -/
def lookupA {α β : Type} [DecidableEq α] : List (α × β) → α → Option β
  | [], _ => none
  | (k, v) :: t, a => if k = a then some v else lookupA t a

/-- `dict.get(a, dflt)`. -/
def getDA {α β : Type} [DecidableEq α] (m : List (α × β)) (a : α) (dflt : β) : β :=
  (lookupA m a).getD dflt

/-- `dict.__setitem__`: update in place (keeping the key position) or append. -/
def setA {α β : Type} [DecidableEq α] : List (α × β) → α → β → List (α × β)
  | [], a, b => [(a, b)]
  | (k, v) :: t, a, b => if k = a then (k, b) :: t else (k, v) :: setA t a b

/-- `d[a] = f d[a]` for an existing key; `none` when the key is absent. -/
def adjustA {α β : Type} [DecidableEq α] (f : β → β) : List (α × β) → α → Option (List (α × β))
  | [], _ => none
  | (k, v) :: t, a =>
    if k = a then some ((k, f v) :: t) else (adjustA f t a).map (fun m => (k, v) :: m)

/-- `d[a] += …` semantics: KeyError when the key is absent. -/
def adjustE {α β : Type} [DecidableEq α] (m : List (α × β)) (a : α) (f : β → β) :
    Except PyError (List (α × β)) :=
  match adjustA f m a with
  | some m2 => .ok m2
  | none => .error .keyError

/-- `d[k] += …` where `k` is an `Option Node` (Python would use `None` as a
key and raise KeyError, since `None` is never a key of these dicts). -/
def adjustKeyO {β : Type} (m : List (Node × β)) (k : Option Node) (f : β → β) :
    Except PyError (List (Node × β)) :=
  match k with
  | some n => adjustE m n f
  | none => .error .keyError

/-- Insert `x` before the first element `y` with `lt x y`; after all elements
it does not strictly precede.  Together with a left fold this reproduces the
stability of Python's `sorted`. -/
def insStable {α : Type} (lt : α → α → Bool) (x : α) : List α → List α
  | [] => [x]
  | y :: t => if lt x y then x :: y :: t else y :: insStable lt x t

/-- Stable sort by the strict precedence test `lt` (Python's `sorted`). -/
def stableSort {α : Type} (lt : α → α → Bool) (l : List α) : List α :=
  l.foldl (fun acc x => insStable lt x acc) []

/-- `max` over a nonempty list of integers (`max(d.values())`). -/
def maxValsZ : List ℤ → Option ℤ
  | [] => none
  | x :: t => some (t.foldl max x)

/-- Python `min(l)` for rationals; ValueError on an empty sequence. -/
def minQE : List ℚ → Except PyError ℚ
  | [] => .error .valueError
  | x :: t => .ok (t.foldl min x)

/-- Python `max(l)` for rationals; ValueError on an empty sequence. -/
def maxQE : List ℚ → Except PyError ℚ
  | [] => .error .valueError
  | x :: t => .ok (t.foldl max x)

/-- Checked rational division (Python raises ZeroDivisionError, including for
`0.0 / 0`). -/
def qdivE (a b : ℚ) : Except PyError ℚ :=
  if b = 0 then .error .zeroDivision else .ok (a / b)

/-! ### Coverage Planner (`ArtNetOptimizer`) -/

/-- `edge[0] == node or edge[1] == node`. -/
def incident (n : Node) (e : Edge) : Prop := e.1 = n ∨ e.2 = n

instance (n : Node) (e : Edge) : Decidable (incident n e) := by
  unfold incident; infer_instance

/-- The scan `for node in self.nodes` of `_find_minimal_artnet_coverage`,
keeping the first node that strictly improves on the best uncovered-edge
count seen so far (`if coverage > max_coverage`). -/
def best_cover_scan (hubs : List Node) (uncovered : List Edge) :
    List Node → Option Node × ℕ → Option Node × ℕ
  | [], best => best
  | n :: rest, best =>
    if n ∈ hubs then best_cover_scan hubs uncovered rest best
    else
      let c := uncovered.countP (fun e => decide (incident n e))
      if best.2 < c then best_cover_scan hubs uncovered rest (some n, c)
      else best_cover_scan hubs uncovered rest best

def best_cover_node (nodes hubs : List Node) (uncovered : List Edge) : Option Node × ℕ :=
  best_cover_scan hubs uncovered nodes (none, 0)

/-- The greedy set-cover loop of `_find_minimal_artnet_coverage`: while
uncovered edges remain, add the best-covering node and delete the edges it
covers; stop when no candidate covers anything.  The loop needs at most one
iteration per uncovered edge, so the edge count is a sufficient fuel. -/
def greedy_cover_loop (nodes : List Node) : ℕ → List Edge → List Node → List Node
  | 0, _, hubs => hubs
  | fuel + 1, uncovered, hubs =>
    if uncovered = [] then hubs
    else
      match best_cover_node nodes hubs uncovered with
      | (some b, _) =>
        greedy_cover_loop nodes fuel
          (uncovered.filter (fun e => !decide (incident b e))) (hubs ++ [b])
      | (none, _) => hubs

/-- `_find_minimal_artnet_coverage`; `uncovered_edges = set(self.edges)`
collapses parallel duplicates before the greedy loop runs. -/
def find_minimal_artnet_coverage (nodes : List Node) (edges : List Edge) : List Node :=
  greedy_cover_loop nodes (pyDedup edges).length (pyDedup edges) []

/-- `_optimize_within_constraint`: rank hubs by incident-edge count over the
full edge list (descending, stable) and keep the first `max_nodes`. -/
def optimize_within_constraint (edges : List Edge) (artnet : List Node) (maxNodes : ℕ) :
    List Node :=
  if artnet.length ≤ maxNodes then artnet
  else
    let node_coverage := artnet.map (fun n => (n, edges.countP (fun e => decide (incident n e))))
    ((stableSort (fun a b => b.2 < a.2) node_coverage).take maxNodes).map (fun p => p.1)

/-- `_find_nearest_artnet_node`: strict-improvement scan, `(None, inf)` when
there are no ArtNet nodes (`none` plays the role of the infinite distance). -/
def find_nearest_artnet_node (d : Node → Node → ℚ) (node : Node) (artnet : List Node) :
    Option Node × Option ℚ :=
  artnet.foldl (fun best a =>
    match best.2 with
    | none => (some a, some (d node a))
    | some m => if d node a < m then (some a, some (d node a)) else best) (none, none)

structure CoverageStats where
  total_nodes : ℕ
  artnet_count : ℕ
  end_count : ℕ
  coverage_percentage : ℚ
  artnet_node_utilization : ℚ
deriving DecidableEq

structure ArtnetResult where
  artnet_nodes : List Node
  end_nodes : List Node
  universe_assignments : List (Node × ℕ)
  node_assignments : List (Node × Option Node)
  max_distance : ℚ
  avg_distance : ℚ
  coverage_stats : CoverageStats
deriving DecidableEq

/-- `optimize_artnet_distribution`.  With an empty node set Python raises
ValueError at `max(distances)`; with a nonempty node set but an empty hub set
all distances are `inf` and Python raises ZeroDivisionError at
`len(self.nodes) / len(artnet_nodes)`.  Note the source computes
`coverage_percentage` as `(len(self.nodes) / len(self.nodes)) * 100`. -/
def optimize_artnet_distribution (d : Node → Node → ℚ) (nodes : List Node)
    (edges : List Edge) (num_artnet_nodes : Option ℕ) : Except PyError ArtnetResult :=
  let artnet0 := find_minimal_artnet_coverage nodes edges
  let artnet :=
    match num_artnet_nodes with
    | some k => if k < artnet0.length then optimize_within_constraint edges artnet0 k else artnet0
    | none => artnet0
  if nodes = [] then .error .valueError
  else if artnet = [] then .error .zeroDivision
  else
    let assigns := nodes.map (fun n => (n, find_nearest_artnet_node d n artnet))
    let distances := assigns.filterMap (fun p => p.2.2)
    match maxQE distances with
    | .error e => .error e
    | .ok maxDist =>
      .ok
        { artnet_nodes := artnet
          end_nodes := nodes.filter (fun n => decide (n ∉ artnet))
          universe_assignments := (pyDedup artnet).enum.map (fun p => (p.2, p.1 + 1))
          node_assignments := assigns.map (fun p => (p.1, p.2.1))
          max_distance := maxDist
          avg_distance := distances.sum / (distances.length : ℚ)
          coverage_stats :=
            { total_nodes := nodes.length
              artnet_count := artnet.length
              end_count := (nodes.filter (fun n => decide (n ∉ artnet))).length
              coverage_percentage := ((nodes.length : ℚ) / (nodes.length : ℚ)) * 100
              artnet_node_utilization := (nodes.length : ℚ) / (artnet.length : ℚ) } }

/-- The quantity the spec calls the coverage statistic: the percentage of
edges having at least one endpoint in the hub set.  Modelled from the spec
(the source never computes it); used only to compare against the reported
`coverage_percentage`. -/
def spec_edge_coverage_percentage (hubs : List Node) (edges : List Edge) : ℚ :=
  100 * (edges.countP (fun e => decide (∃ h ∈ hubs, incident h e)) : ℚ) / (edges.length : ℚ)

/-! ### Direction Balancer, first stage (`balance_edge_directions`) -/

/-- A direction entry `(data_start, data_end)`; `(none, none)` for an edge
with no hub endpoint. -/
abbrev Dir := Option Node × Option Node

abbrev DirMap := List (Edge × Dir)

abbrev OutMap := List (Node × ℤ)

/-- One edge's contribution to `node_to_artnet_neighbors` as built in
`balance_edge_directions` (lines 396-407): appends without a membership
check, so repeated edges add repeated entries. -/
def neighbors_step (artnet : List Node) (m : List (Node × List Node)) (e : Edge) :
    List (Node × List Node) :=
  let m1 := if e.1 ∈ artnet then setA m e.2 (getDA m e.2 [] ++ [e.1]) else m
  if e.2 ∈ artnet then setA m1 e.1 (getDA m1 e.1 [] ++ [e.2]) else m1

def node_to_artnet_neighbors (edges : List Edge) (artnet : List Node) :
    List (Node × List Node) :=
  edges.foldl (neighbors_step artnet) []

/-- One edge's contribution to the same map as built in
`balance_row_power_and_ports` (lines 567-579), which does check membership
before appending. -/
def neighbors_dedup_step (artnet : List Node) (m : List (Node × List Node)) (e : Edge) :
    List (Node × List Node) :=
  let m1 :=
    if e.1 ∈ artnet then
      if e.1 ∈ getDA m e.2 [] then m else setA m e.2 (getDA m e.2 [] ++ [e.1])
    else m
  if e.2 ∈ artnet then
    if e.2 ∈ getDA m1 e.1 [] then m1 else setA m1 e.1 (getDA m1 e.1 [] ++ [e.2])
  else m1

def neighbors_map_dedup (edges : List Edge) (artnet : List Node) :
    List (Node × List Node) :=
  edges.foldl (neighbors_dedup_step artnet) []

/-- One edge of the first pass of `balance_edge_directions`: assign a default
direction, sourcing two-hub edges at the endpoint with the currently lower
output count (tie broken toward the start endpoint). -/
def bed_first_step (artnet : List Node) (st : DirMap × OutMap) (edge : Edge) :
    DirMap × OutMap :=
  if edge.1 ∈ artnet ∧ edge.2 ∈ artnet then
    if getDA st.2 edge.1 0 ≤ getDA st.2 edge.2 0 then
      (setA st.1 edge (some edge.1, some edge.2), setA st.2 edge.1 (getDA st.2 edge.1 0 + 1))
    else
      (setA st.1 edge (some edge.2, some edge.1), setA st.2 edge.2 (getDA st.2 edge.2 0 + 1))
  else if edge.1 ∈ artnet then
    (setA st.1 edge (some edge.1, some edge.2), setA st.2 edge.1 (getDA st.2 edge.1 0 + 1))
  else if edge.2 ∈ artnet then
    (setA st.1 edge (some edge.2, some edge.1), setA st.2 edge.2 (getDA st.2 edge.2 0 + 1))
  else (setA st.1 edge (none, none), st.2)

def bed_first_pass (edges : List Edge) (artnet : List Node) : DirMap × OutMap :=
  edges.foldl (bed_first_step artnet) ([], (pyDedup artnet).map (fun n => (n, 0)))

inductive RevKind where
  | direct
  | redirect
deriving DecidableEq

/-- The reversible-edge entries contributed by one direction entry for one
overloaded node: a direct reversal (both endpoints hubs) or redirects of a
non-hub sink to alternative hubs with spare capacity, with the capacity
recorded at collection time. -/
def collect_reversible_entry (nmap : List (Node × List Node)) (artnet : List Node)
    (outs : OutMap) (maxOut : ℤ) (overloaded : Node) (p : Edge × Dir) :
    List (Edge × RevKind × Node × ℤ) :=
  match p.2 with
  | (some ds, de) =>
    if ds = overloaded then
      match de with
      | some t =>
        if t ∈ artnet then [(p.1, RevKind.direct, t, maxOut - getDA outs t 0)]
        else
          match lookupA nmap t with
          | some alts =>
            alts.filterMap (fun alt =>
              if alt ≠ overloaded then
                if 0 < maxOut - getDA outs alt 0 then
                  some (p.1, RevKind.redirect, alt, maxOut - getDA outs alt 0)
                else none
              else none)
          | none => []
      | none => []
    else []
  | (none, _) => []

def collect_reversible (dirs : DirMap) (nmap : List (Node × List Node))
    (artnet : List Node) (outs : OutMap) (maxOut : ℤ) (overloaded : Node) :
    List (Edge × RevKind × Node × ℤ) :=
  dirs.flatMap (collect_reversible_entry nmap artnet outs maxOut overloaded)

/-- Apply the collected reversals/redirects in order until the overloaded
node is back under the limit, skipping zero-capacity entries. -/
def apply_reversible (maxOut : ℤ) (overloaded : Node) :
    List (Edge × RevKind × Node × ℤ) → DirMap × OutMap → DirMap × OutMap
  | [], st => st
  | (edge, kind, other, cap) :: rest, (dirs, outs) =>
    if getDA outs overloaded 0 ≤ maxOut then (dirs, outs)
    else if 0 < cap then
      let old := (lookupA dirs edge).getD (none, none)
      let dirs2 :=
        match kind with
        | RevKind.direct => setA dirs edge (old.2, old.1)
        | RevKind.redirect => setA dirs edge (some other, old.2)
      let outs1 := setA outs overloaded (getDA outs overloaded 0 - 1)
      let outs2 := setA outs1 other (getDA outs1 other 0 + 1)
      apply_reversible maxOut overloaded rest (dirs2, outs2)
    else apply_reversible maxOut overloaded rest (dirs, outs)

/-- Second pass of `balance_edge_directions`: for each initially overloaded
node, sort its reversible edges by recorded capacity (descending, stable)
and apply them. -/
def bed_second_pass (nmap : List (Node × List Node)) (artnet : List Node) (maxOut : ℤ) :
    List Node → DirMap × OutMap → DirMap × OutMap
  | [], st => st
  | ov :: rest, (dirs, outs) =>
    let items := stableSort (fun a b => b.2.2.2 < a.2.2.2)
      (collect_reversible dirs nmap artnet outs maxOut ov)
    bed_second_pass nmap artnet maxOut rest (apply_reversible maxOut ov items (dirs, outs))

structure BEDResult where
  directed_edges : List (Edge × Node × Option Node)
  edge_directions : DirMap
  artnet_output_counts : OutMap
  violations : List Node
deriving DecidableEq

/-- `balance_edge_directions`. -/
def balance_edge_directions (edges : List Edge) (artnet : List Node) (maxOut : ℤ) :
    BEDResult :=
  let nmap := node_to_artnet_neighbors edges artnet
  let fp := bed_first_pass edges artnet
  let viol := (fp.2.filter (fun p => decide (maxOut < p.2))).map (fun p => p.1)
  let sp := bed_second_pass nmap artnet maxOut viol fp
  { directed_edges := sp.1.filterMap (fun p =>
      match p.2.1 with
      | some s => some (p.1, s, p.2.2)
      | none => none)
    edge_directions := sp.1
    artnet_output_counts := sp.2
    violations := (sp.2.filter (fun p => decide (maxOut < p.2))).map (fun p => p.1) }

/-! ### Direction Balancer, second stage (`balance_row_power_and_ports`)

The Python function is a single `while` loop over a mutable `phase` variable.
Pitfalls modelled exactly:
* the `for edge in edges_in_row:` loop of the phase-1 row-violation repair
  (line 777) sits *outside* the `for row_y, amps in row_violations:` loop that
  assigns `edges_in_row` and `row_y` (lines 765-774), so both names keep the
  value of the *last* violating row — or are still unassigned
  (`UnboundLocalError`) the first time the block runs with no row violations;
* phases 2 and 3 use `row_amps[alt_row] += 1` / `row_amps[target_row] += 1`
  on a possibly missing key (KeyError), while the phase-1 blocks use the safe
  `row_amps.get(alt_row, 0) + 1` form;
* the final report evaluates `max(row_amps.values())` and
  `max(node_outputs.values())` unconditionally (ValueError on empty);
* a phase transition `continue`s without incrementing `iteration`, and since
  `phase` only ever increases there are at most two such passes — the loop
  fuel `max_iterations + 3` is therefore never exhausted.
`edges_in_row` is also assigned inside the phase-2 block, but `phase` never
returns to 1, so that assignment can never reach the only read of the
variable (which is in the phase-1 block); the state below therefore only
tracks the phase-1 assignments. -/

abbrev RowMap := List (ℚ × ℤ)

/-- `calculate_row_power`: one amp per directed edge, keyed by the source
node's Y coordinate. -/
def calc_row_power (edges : List Edge) (dirs : DirMap) : RowMap :=
  edges.foldl (fun m e =>
    match (lookupA dirs e).getD (none, none) with
    | (some s, _) => setA m s.2.1 (getDA m s.2.1 0 + 1)
    | (none, _) => m) []

/-- `calculate_node_outputs`: outgoing-edge count per ArtNet node. -/
def calc_node_outputs (edges : List Edge) (artnet : List Node) (dirs : DirMap) : OutMap :=
  edges.foldl (fun m e =>
    match (lookupA dirs e).getD (none, none) with
    | (some s, _) => if s ∈ artnet then setA m s (getDA m s 0 + 1) else m
    | (none, _) => m) ((pyDedup artnet).map (fun n => (n, 0)))

def maxRow (m : RowMap) : Option ℤ :=
  maxValsZ (m.map (fun p => p.2))

/-- `current_max_row < best_max_row` with `none` standing for `float('inf')`. -/
def ltInf (cur : ℤ) (b : Option ℤ) : Bool :=
  match b with
  | none => true
  | some v => decide (cur < v)

/-- Innermost phase-2 loop: take the first alternative (in priority order)
whose row load is below the violating row's, repoint the edge there and
perform the Python dictionary updates (whose only lasting effect here is a
possible KeyError, since the loop recomputes the tallies next iteration). -/
def p2_try_options (rowAmps : RowMap) (nodeOut : OutMap) (dirs : DirMap) (e : Edge)
    (ds de : Option Node) (highY : ℚ) (highA : ℤ) :
    List (ℤ × Node × ℚ × ℤ) → Except PyError (Option DirMap)
  | [] => .ok none
  | (_, alt, altRow, ara) :: rest =>
    if ara < highA then
      match adjustE rowAmps highY (fun v => v - 1) with
      | .error er => .error er
      | .ok ra1 =>
        match adjustE ra1 altRow (fun v => v + 1) with
        | .error er => .error er
        | .ok _ =>
          match adjustKeyO nodeOut ds (fun v => v - 1) with
          | .error er => .error er
          | .ok no1 =>
            match adjustKeyO no1 alt (fun v => v + 1) with
            | .error er => .error er
            | .ok _ => .ok (some (setA dirs e (some alt, de)))
    else p2_try_options rowAmps nodeOut dirs e ds de highY highA rest

/-- Build `alt_options` for one edge in phase 2: alternatives with spare row
and port capacity, with priority `(100 if neighboring row else 0) - load`. -/
def p2_build_options (rowAmps : RowMap) (nodeOut : OutMap) (neighborRows : List ℚ)
    (maxAmps maxOut : ℤ) (ds : Option Node) (alts : List Node) :
    List (ℤ × Node × ℚ × ℤ) :=
  alts.filterMap (fun alt =>
    if some alt = ds then none
    else
      if getDA rowAmps alt.2.1 0 < maxAmps ∧ getDA nodeOut alt 0 < maxOut then
        some ((if alt.2.1 ∈ neighborRows then 100 else 0) - getDA rowAmps alt.2.1 0,
          alt, alt.2.1, getDA rowAmps alt.2.1 0)
      else none)

def p2_try_edges (nmap : List (Node × List Node)) (rowAmps : RowMap) (nodeOut : OutMap)
    (neighborRows : List ℚ) (maxAmps maxOut : ℤ) (dirs : DirMap) (highY : ℚ) (highA : ℤ) :
    List Edge → Except PyError (Option DirMap)
  | [] => .ok none
  | e :: rest =>
    match (lookupA dirs e).getD (none, none) with
    | (ds, some t) =>
      match lookupA nmap t with
      | some alts =>
        match p2_try_options rowAmps nodeOut dirs e ds (some t) highY highA
            (stableSort (fun a b => b.1 < a.1)
              (p2_build_options rowAmps nodeOut neighborRows maxAmps maxOut ds alts)) with
        | .error er => .error er
        | .ok (some d2) => .ok (some d2)
        | .ok none =>
          p2_try_edges nmap rowAmps nodeOut neighborRows maxAmps maxOut dirs highY highA rest
      | none => p2_try_edges nmap rowAmps nodeOut neighborRows maxAmps maxOut dirs highY highA rest
    | (_, none) => p2_try_edges nmap rowAmps nodeOut neighborRows maxAmps maxOut dirs highY highA rest

/-- Phase-2 outer loop over rows sorted by load (descending, stable); rows
that are at most average and below the maximum are skipped. -/
def p2_try_rows (edges : List Edge) (nmap : List (Node × List Node)) (rowAmps : RowMap)
    (nodeOut : OutMap) (maxAmps maxOut : ℤ) (dirs : DirMap) (avg : ℚ) (maxRA : ℤ)
    (sortedRows : List ℚ) : List (ℚ × ℤ) → Except PyError (Option DirMap)
  | [] => .ok none
  | (highY, highA) :: rest =>
    if (highA : ℚ) ≤ avg ∧ highA < maxRA then
      p2_try_rows edges nmap rowAmps nodeOut maxAmps maxOut dirs avg maxRA sortedRows rest
    else
      let rowIdx := sortedRows.findIdx (fun y => decide (y = highY))
      let neighborRows :=
        (if 0 < rowIdx then [sortedRows.getD (rowIdx - 1) 0] else []) ++
        (if rowIdx < sortedRows.length - 1 then [sortedRows.getD (rowIdx + 1) 0] else [])
      match p2_try_edges nmap rowAmps nodeOut neighborRows maxAmps maxOut dirs highY highA
          (edges.filter (fun e =>
            match (lookupA dirs e).getD (none, none) with
            | (some s, _) => decide (s.2.1 = highY)
            | (none, _) => false)) with
      | .error er => .error er
      | .ok (some d2) => .ok (some d2)
      | .ok none =>
        p2_try_rows edges nmap rowAmps nodeOut maxAmps maxOut dirs avg maxRA sortedRows rest

def phase2_try (edges : List Edge) (nmap : List (Node × List Node)) (maxAmps maxOut : ℤ)
    (dirs : DirMap) (rowAmps : RowMap) (nodeOut : OutMap) : Except PyError (Option DirMap) :=
  match maxRow rowAmps with
  | none => .ok none
  | some maxRA =>
    let avg : ℚ := ((rowAmps.map (fun p => p.2)).sum : ℚ) / (rowAmps.length : ℚ)
    p2_try_rows edges nmap rowAmps nodeOut maxAmps maxOut dirs avg maxRA
      (stableSort (fun a b => decide (a < b)) (rowAmps.map (fun p => p.1)))
      (stableSort (fun a b => b.2 < a.2) rowAmps)

/-- Phase-3 collection `edges_from_row`: edges whose data source sits in the
given row, together with the source and sink read at collection time. -/
def p3_collect (edges : List Edge) (dirs : DirMap) (highY : ℚ) :
    List (Edge × Node × Option Node) :=
  edges.filterMap (fun e =>
    match (lookupA dirs e).getD (none, none) with
    | (some s, de) => if s.2.1 = highY then some (e, s, de) else none
    | (none, _) => none)

/-- Phase-3 inner loop: reverse the first hub-to-hub edge whose target row
and target node have capacity and whose target row is lighter.  The unused
Python local `source_node_outputs = node_outputs.get(data_start, 0)` has no
effect and is omitted. -/
def p3_try_edges (artnet : List Node) (rowAmps : RowMap) (nodeOut : OutMap)
    (maxAmps maxOut : ℤ) (dirs : DirMap) (highY : ℚ) (highA : ℤ) :
    List (Edge × Node × Option Node) → Except PyError (Option DirMap)
  | [] => .ok none
  | (e, ds, de) :: rest =>
    match de with
    | some t =>
      if ds ∈ artnet ∧ t ∈ artnet then
        if getDA rowAmps t.2.1 0 < maxAmps ∧ getDA nodeOut t 0 < maxOut ∧
            getDA rowAmps t.2.1 0 < highA then
          match adjustE rowAmps highY (fun v => v - 1) with
          | .error er => .error er
          | .ok ra1 =>
            match adjustE ra1 t.2.1 (fun v => v + 1) with
            | .error er => .error er
            | .ok _ =>
              match adjustE nodeOut ds (fun v => v - 1) with
              | .error er => .error er
              | .ok no1 =>
                match adjustE no1 t (fun v => v + 1) with
                | .error er => .error er
                | .ok _ => .ok (some (setA dirs e (some t, some ds)))
        else p3_try_edges artnet rowAmps nodeOut maxAmps maxOut dirs highY highA rest
      else p3_try_edges artnet rowAmps nodeOut maxAmps maxOut dirs highY highA rest
    | none => p3_try_edges artnet rowAmps nodeOut maxAmps maxOut dirs highY highA rest

/-- Phase-3 outer loop: only rows at the maximum load are considered. -/
def p3_try_rows (edges : List Edge) (artnet : List Node) (rowAmps : RowMap) (nodeOut : OutMap)
    (maxAmps maxOut : ℤ) (dirs : DirMap) (maxRA : ℤ) :
    List (ℚ × ℤ) → Except PyError (Option DirMap)
  | [] => .ok none
  | (highY, highA) :: rest =>
    if highA < maxRA then
      p3_try_rows edges artnet rowAmps nodeOut maxAmps maxOut dirs maxRA rest
    else
      match p3_try_edges artnet rowAmps nodeOut maxAmps maxOut dirs highY highA
          (p3_collect edges dirs highY) with
      | .error er => .error er
      | .ok (some d2) => .ok (some d2)
      | .ok none => p3_try_rows edges artnet rowAmps nodeOut maxAmps maxOut dirs maxRA rest

def phase3_try (edges : List Edge) (artnet : List Node) (maxAmps maxOut : ℤ)
    (dirs : DirMap) (rowAmps : RowMap) (nodeOut : OutMap) : Except PyError (Option DirMap) :=
  match maxRow rowAmps with
  | none => .ok none
  | some maxRA =>
    p3_try_rows edges artnet rowAmps nodeOut maxAmps maxOut dirs maxRA
      (stableSort (fun a b => b.2 < a.2) rowAmps)

/-- Innermost phase-1 row-repair loop; the `row_amps[row_y] -= 1` update uses
the loop variable leaked from the (separate) row-violations loop, raising
UnboundLocalError when it was never assigned. -/
def p1row_try_alts (rowAmps : RowMap) (nodeOut : OutMap) (maxAmps maxOut : ℤ)
    (dirs : DirMap) (e : Edge) (ds de : Option Node) (rowY : Option ℚ) :
    List Node → Except PyError (Option DirMap)
  | [] => .ok none
  | alt :: rest =>
    if some alt = ds then p1row_try_alts rowAmps nodeOut maxAmps maxOut dirs e ds de rowY rest
    else
      if getDA rowAmps alt.2.1 0 < maxAmps ∧ getDA nodeOut alt 0 < maxOut then
        match rowY with
        | none => .error .unboundLocal
        | some ry =>
          match adjustE rowAmps ry (fun v => v - 1) with
          | .error er => .error er
          | .ok ra1 =>
            match adjustKeyO nodeOut ds (fun v => v - 1) with
            | .error er => .error er
            | .ok no1 =>
              match adjustKeyO no1 alt (fun v => v + 1) with
              | .error er => .error er
              | .ok _ =>
                let _ := setA ra1 alt.2.1 (getDA ra1 alt.2.1 0 + 1)
                .ok (some (setA dirs e (some alt, de)))
      else p1row_try_alts rowAmps nodeOut maxAmps maxOut dirs e ds de rowY rest

def p1row_try_edges (nmap : List (Node × List Node)) (rowAmps : RowMap) (nodeOut : OutMap)
    (maxAmps maxOut : ℤ) (dirs : DirMap) (rowY : Option ℚ) :
    List Edge → Except PyError (Option DirMap)
  | [] => .ok none
  | e :: rest =>
    match (lookupA dirs e).getD (none, none) with
    | (ds, some t) =>
      match lookupA nmap t with
      | some alts =>
        match p1row_try_alts rowAmps nodeOut maxAmps maxOut dirs e ds (some t) rowY alts with
        | .error er => .error er
        | .ok (some d2) => .ok (some d2)
        | .ok none => p1row_try_edges nmap rowAmps nodeOut maxAmps maxOut dirs rowY rest
      | none => p1row_try_edges nmap rowAmps nodeOut maxAmps maxOut dirs rowY rest
    | (_, none) => p1row_try_edges nmap rowAmps nodeOut maxAmps maxOut dirs rowY rest

/-- The phase-1 row block: the loop over `row_violations` (re)assigns
`row_y` and `edges_in_row` to the values of its last iteration, after which
the dedented redirect loop runs on whatever the two names currently hold —
UnboundLocalError if they were never assigned in this call. -/
def phase1_row_try (edges : List Edge) (nmap : List (Node × List Node)) (maxAmps maxOut : ℤ)
    (dirs : DirMap) (rowAmps : RowMap) (nodeOut : OutMap) (rowViol : List (ℚ × ℤ))
    (stRowY : Option ℚ) (stEIR : Option (List Edge)) :
    Except PyError (Option DirMap × Option ℚ × Option (List Edge)) :=
  let leak :=
    match rowViol.getLast? with
    | some lastV =>
      (some lastV.1, some (edges.filter (fun e =>
        match (lookupA dirs e).getD (none, none) with
        | (some s, _) => decide (s.2.1 = lastV.1)
        | (none, _) => false)))
    | none => (stRowY, stEIR)
  match leak.2 with
  | none => .error .unboundLocal
  | some eir =>
    match p1row_try_edges nmap rowAmps nodeOut maxAmps maxOut dirs leak.1 eir with
    | .error er => .error er
    | .ok (some d2) => .ok (some d2, leak.1, leak.2)
    | .ok none => .ok (none, leak.1, leak.2)

/-- Innermost phase-1 node-repair loop; here `row_amps[data_start[1]] -= 1`
subscripts the source itself (TypeError if it were None, KeyError if its row
is untallied). -/
def p1node_try_alts (rowAmps : RowMap) (nodeOut : OutMap) (maxAmps maxOut : ℤ)
    (dirs : DirMap) (e : Edge) (ds de : Option Node) :
    List Node → Except PyError (Option DirMap)
  | [] => .ok none
  | alt :: rest =>
    if some alt = ds then p1node_try_alts rowAmps nodeOut maxAmps maxOut dirs e ds de rest
    else
      if getDA rowAmps alt.2.1 0 < maxAmps ∧ getDA nodeOut alt 0 < maxOut then
        match ds with
        | none => .error .typeError
        | some s =>
          match adjustE rowAmps s.2.1 (fun v => v - 1) with
          | .error er => .error er
          | .ok ra1 =>
            match adjustKeyO nodeOut ds (fun v => v - 1) with
            | .error er => .error er
            | .ok no1 =>
              match adjustKeyO no1 alt (fun v => v + 1) with
              | .error er => .error er
              | .ok _ =>
                let _ := setA ra1 alt.2.1 (getDA ra1 alt.2.1 0 + 1)
                .ok (some (setA dirs e (some alt, de)))
      else p1node_try_alts rowAmps nodeOut maxAmps maxOut dirs e ds de rest

def p1node_try_edges (nmap : List (Node × List Node)) (rowAmps : RowMap) (nodeOut : OutMap)
    (maxAmps maxOut : ℤ) (dirs : DirMap) :
    List Edge → Except PyError (Option DirMap)
  | [] => .ok none
  | e :: rest =>
    match (lookupA dirs e).getD (none, none) with
    | (ds, some t) =>
      match lookupA nmap t with
      | some alts =>
        match p1node_try_alts rowAmps nodeOut maxAmps maxOut dirs e ds (some t) alts with
        | .error er => .error er
        | .ok (some d2) => .ok (some d2)
        | .ok none => p1node_try_edges nmap rowAmps nodeOut maxAmps maxOut dirs rest
      | none => p1node_try_edges nmap rowAmps nodeOut maxAmps maxOut dirs rest
    | (_, none) => p1node_try_edges nmap rowAmps nodeOut maxAmps maxOut dirs rest

def p1node_try_nodes (edges : List Edge) (nmap : List (Node × List Node)) (rowAmps : RowMap)
    (nodeOut : OutMap) (maxAmps maxOut : ℤ) (dirs : DirMap) :
    List (Node × ℤ) → Except PyError (Option DirMap)
  | [] => .ok none
  | (node, _) :: rest =>
    match p1node_try_edges nmap rowAmps nodeOut maxAmps maxOut dirs
        (edges.filter (fun e =>
          decide (((lookupA dirs e).getD (none, none)).1 = some node))) with
    | .error er => .error er
    | .ok (some d2) => .ok (some d2)
    | .ok none => p1node_try_nodes edges nmap rowAmps nodeOut maxAmps maxOut dirs rest

structure BRPState where
  dirs : DirMap
  phase : ℕ
  bestMaxRow : Option ℤ
  itersNoImp : ℕ
  iteration : ℕ
  rowY : Option ℚ
  edgesInRow : Option (List Edge)
deriving DecidableEq

/-- The best-max-row tracking of loop lines 613-621, executed in phases 2 and
3 when any row carries load. -/
def brp_tracking (st : BRPState) (rowAmps : RowMap) : BRPState :=
  match maxRow rowAmps with
  | some cur =>
    if st.phase = 2 ∨ st.phase = 3 then
      if ltInf cur st.bestMaxRow then { st with bestMaxRow := some cur, itersNoImp := 0 }
      else { st with itersNoImp := st.itersNoImp + 1 }
    else st
  | none => st

/-- One pass of the `while` loop body.  Returns `(stop, state)` where `stop`
models a `break`. -/
def brp_step (edges : List Edge) (artnet : List Node) (nmap : List (Node × List Node))
    (maxAmps maxOut : ℤ) (st : BRPState) : Except PyError (Bool × BRPState) :=
  let rowAmps := calc_row_power edges st.dirs
  let nodeOut := calc_node_outputs edges artnet st.dirs
  let rowViol := rowAmps.filter (fun p => decide (maxAmps < p.2))
  let nodeViol := nodeOut.filter (fun p => decide (maxOut < p.2))
  if st.phase = 1 ∧ rowViol = [] ∧ nodeViol = [] then
    .ok (false, { st with phase := 2, bestMaxRow := maxRow rowAmps, itersNoImp := 0 })
  else if st.phase = 2 ∧ 30 ≤ st.itersNoImp then
    .ok (false, { st with phase := 3, bestMaxRow := maxRow rowAmps, itersNoImp := 0 })
  else
    let st1 := brp_tracking st rowAmps
    if st1.phase = 3 ∧ 50 ≤ st1.itersNoImp ∧ rowAmps ≠ [] then .ok (true, st1)
    else if st1.phase = 2 then
      match phase2_try edges nmap maxAmps maxOut st1.dirs rowAmps nodeOut with
      | .error er => .error er
      | .ok (some d2) => .ok (false, { st1 with dirs := d2, iteration := st1.iteration + 1 })
      | .ok none => .ok (true, st1)
    else if st1.phase = 3 then
      match phase3_try edges artnet maxAmps maxOut st1.dirs rowAmps nodeOut with
      | .error er => .error er
      | .ok (some d2) => .ok (false, { st1 with dirs := d2, iteration := st1.iteration + 1 })
      | .ok none => .ok (false, { st1 with iteration := st1.iteration + 1 })
    else
      match phase1_row_try edges nmap maxAmps maxOut st1.dirs rowAmps nodeOut rowViol
          st1.rowY st1.edgesInRow with
      | .error er => .error er
      | .ok (some d2, ry, eir) =>
        .ok (false,
          { st1 with dirs := d2, rowY := ry, edgesInRow := eir, iteration := st1.iteration + 1 })
      | .ok (none, ry, eir) =>
        match p1node_try_nodes edges nmap rowAmps nodeOut maxAmps maxOut st1.dirs nodeViol with
        | .error er => .error er
        | .ok (some d2) =>
          .ok (false,
            { st1 with dirs := d2, rowY := ry, edgesInRow := eir, iteration := st1.iteration + 1 })
        | .ok none => .ok (true, { st1 with rowY := ry, edgesInRow := eir })

/-- The `while iteration < max_iterations` loop, with fuel as described in
the section comment (the fuel branch is unreachable). -/
def brp_loop (edges : List Edge) (artnet : List Node) (nmap : List (Node × List Node))
    (maxAmps maxOut : ℤ) (maxIter : ℕ) : ℕ → BRPState → Except PyError BRPState
  | 0, st => .ok st
  | fuel + 1, st =>
    if st.iteration < maxIter then
      match brp_step edges artnet nmap maxAmps maxOut st with
      | .error er => .error er
      | .ok (true, st2) => .ok st2
      | .ok (false, st2) => brp_loop edges artnet nmap maxAmps maxOut maxIter fuel st2
    else .ok st

structure BRPResult where
  edge_directions : DirMap
  row_power : RowMap
  node_outputs : OutMap
  row_violations : List (ℚ × ℤ)
  node_violations : List (Node × ℤ)
deriving DecidableEq

/-- `balance_row_power_and_ports`. -/
def balance_row_power_and_ports (edges : List Edge) (artnet : List Node) (dirs0 : DirMap)
    (maxAmps maxOut : ℤ) (maxIter : ℕ) : Except PyError BRPResult :=
  match brp_loop edges artnet (neighbors_map_dedup edges artnet) maxAmps maxOut maxIter
      (maxIter + 3)
      { dirs := dirs0, phase := 1, bestMaxRow := none, itersNoImp := 0, iteration := 0,
        rowY := none, edgesInRow := none } with
  | .error er => .error er
  | .ok st =>
    let rowAmps := calc_row_power edges st.dirs
    let nodeOut := calc_node_outputs edges artnet st.dirs
    match maxRow rowAmps with
    | none => .error .valueError
    | some _ =>
      match maxValsZ (nodeOut.map (fun p => p.2)) with
      | none => .error .valueError
      | some _ =>
        .ok
          { edge_directions := st.dirs
            row_power := rowAmps
            node_outputs := nodeOut
            row_violations := rowAmps.filter (fun p => decide (maxAmps < p.2))
            node_violations := nodeOut.filter (fun p => decide (maxOut < p.2)) }

/-! ### Power Router (`power_optimizer.py`) -/

/-- `calculate_node_power_requirements`.  Python's `if edge_directions:`
treats both `None` and an empty dict as falsy and then uses the fallback
direction heuristic. -/
def calculate_node_power_requirements (edges : List Edge) (artnet : List Node)
    (edge_directions : Option DirMap) : List (Node × ℕ) :=
  match edge_directions with
  | some dirs =>
    if dirs = [] then
      (pyDedup artnet).map (fun a =>
        (a, 120 * edges.countP (fun e => decide (e.1 = a ∨ (e.2 = a ∧ e.1 ∉ artnet)))))
    else
      (pyDedup artnet).map (fun a =>
        (a, 120 * edges.countP (fun e =>
          decide (((lookupA dirs e).getD (none, none)).1 = some a))))
  | none =>
    (pyDedup artnet).map (fun a =>
      (a, 120 * edges.countP (fun e => decide (e.1 = a ∨ (e.2 = a ∧ e.1 ∉ artnet)))))

/-- `min(euclidean_distance(node, other) for other in others)` (only called
with a nonempty `others`). -/
def minD (d : Node → Node → ℚ) (n : Node) : List Node → ℚ
  | [] => 0
  | x :: t => t.foldl (fun m o => min m (d n o)) (d n x)

/-- The candidate scan of `nearest_neighbor_route`: among the remaining
nodes that still fit the power budget, keep the one with the strictly best
score (distance plus half the distance to its nearest remaining sibling when
more than one node remains).  The accumulator holds
`(best_node, best_score, best_distance)`. -/
def nnr_select (d : Node → Node → ℚ) (pw : Node → ℕ) (maxPower total : ℕ)
    (current : Node) (remaining : List Node) : Option (Node × ℚ) :=
  (remaining.foldl (fun best n =>
    if total + pw n ≤ maxPower then
      let distance := d current n
      let score :=
        if 1 < remaining.length then distance + minD d n (remaining.erase n) / 2
        else distance
      match best with
      | none => some (n, score, distance)
      | some b => if score < b.2.1 then some (n, score, distance) else best
    else best) (none : Option (Node × ℚ × ℚ))).map (fun b => (b.1, b.2.2))

structure NNRoute where
  route : List Node
  power : ℕ
  length : ℚ
deriving DecidableEq

def nnr_loop (d : Node → Node → ℚ) (pw : Node → ℕ) (maxPower : ℕ) :
    ℕ → List Node → Node → List Node → ℕ → ℚ → NNRoute
  | 0, _, _, route, total, len => ⟨route, total, len⟩
  | fuel + 1, remaining, current, route, total, len =>
    if remaining = [] then ⟨route, total, len⟩
    else
      match nnr_select d pw maxPower total current remaining with
      | none => ⟨route, total, len⟩
      | some (b, bdist) =>
        nnr_loop d pw maxPower fuel (remaining.erase b) b (route ++ [b])
          (total + pw b) (len + bdist)

/-- `nearest_neighbor_route`; `remaining = set(available_nodes)` collapses
duplicates, and the loop runs at most once per remaining node. -/
def nearest_neighbor_route (d : Node → Node → ℚ) (hub : Node) (available : List Node)
    (pw : Node → ℕ) (maxPower : ℕ) : NNRoute :=
  if available = [] then ⟨[], 0, 0⟩
  else nnr_loop d pw maxPower (pyDedup available).length (pyDedup available) hub [] 0 0

/-- The power-limited accumulation shared verbatim by
`split_into_circuits` (genetic algorithm, lines 635-660), the inline split in
`solve_with_simulated_annealing` (lines 1112-1130) and the cluster grouping
of `cluster_nodes_by_proximity` (lines 379-401): append while the running
power stays within the budget, otherwise flush and start a new group. -/
def split_loop (pw : Node → ℕ) (maxPower : ℕ) :
    List Node → List (List Node) → List Node → ℕ → List (List Node)
  | [], acc, cur, _ => if cur = [] then acc else acc ++ [cur]
  | n :: rest, acc, cur, curP =>
    if curP + pw n ≤ maxPower then split_loop pw maxPower rest acc (cur ++ [n]) (curP + pw n)
    else if cur = [] then split_loop pw maxPower rest acc [n] (pw n)
    else split_loop pw maxPower rest (acc ++ [cur]) [n] (pw n)

def split_into_circuits (pw : Node → ℕ) (maxPower : ℕ) (nodes : List Node) :
    List (List Node) :=
  split_loop pw maxPower nodes [] [] 0

/-- Sum of the demand mapping over a circuit's nodes. -/
def circuit_power (pw : Node → ℕ) (c : List Node) : ℕ :=
  (c.map pw).sum

/-- `cluster_nodes_by_proximity`: sort by `(atan2 bearing, distance)` from
the hub — both float quantities, represented by the oracles `angleOf` and
`d` — then group greedily under the power budget. -/
def cluster_nodes_by_proximity (angleOf d : Node → Node → ℚ) (hub : Node)
    (nodes : List Node) (pw : Node → ℕ) (maxPower : ℕ) : List (List Node) :=
  let sortedNodes := stableSort (fun a b =>
    decide (angleOf hub a < angleOf hub b ∨ (angleOf hub a = angleOf hub b ∧ d hub a < d hub b)))
    nodes
  split_into_circuits pw maxPower sortedNodes

/-- The closest-hub scan used throughout `power_optimizer.py`
(`min_distance = inf; closest_hub_idx = 0; …`). -/
def closest_hub_idx (d : Node → Node → ℚ) (hubs : List Node) (node : Node) : ℕ :=
  (hubs.foldl (fun st hub =>
    match st.2.2 with
    | none => (st.2.1, st.2.1 + 1, some (d node hub))
    | some m =>
      if d node hub < m then (st.2.1, st.2.1 + 1, some (d node hub))
      else (st.1, st.2.1 + 1, st.2.2)) ((0 : ℕ), (0 : ℕ), (none : Option ℚ))).1

structure Circuit where
  hub : Node
  hub_index : ℕ
  route : List Node
  power : ℕ
  length : ℚ
  nodes_count : ℕ
deriving DecidableEq

/-- The greedy branch of `optimize_power_distribution` (lines 1415-1468):
assign each ArtNet node to its closest hub, cluster each hub's nodes, route
each cluster with `nearest_neighbor_route`, and *skip* clusters whose route
comes back empty (the `if not route: … continue` warning path). -/
def greedy_circuits (angleOf d : Node → Node → ℚ) (power_hubs : List Node)
    (artnet : List Node) (pw : Node → ℕ) (maxPower : ℕ) : List Circuit :=
  (List.range power_hubs.length).flatMap (fun i =>
    let hub := power_hubs.getD i (0, 0, 0)
    let assigned := artnet.filter (fun n => decide (closest_hub_idx d power_hubs n = i))
    (cluster_nodes_by_proximity angleOf d hub assigned pw maxPower).filterMap (fun cluster =>
      let r := nearest_neighbor_route d hub cluster pw maxPower
      if r.route = [] then none
      else some ⟨hub, i, r.route, r.power, r.length, r.route.length⟩))

/-! ### 2-opt refinement (`solve_with_2opt_improvement`) -/

/-- Total route length: depot to first node plus consecutive segments. -/
def segments_length (d : Node → Node → ℚ) : Node → List Node → ℚ
  | _, [] => 0
  | prev, x :: t => d prev x + segments_length d x t

def route_length (d : Node → Node → ℚ) (hub : Node) : List Node → ℚ
  | [] => 0
  | x :: t => d hub x + segments_length d x t

/-- `best_route[:i+1] + best_route[i+1:j+1][::-1] + best_route[j+1:]`. -/
def two_opt_swap (route : List Node) (i j : ℕ) : List Node :=
  route.take (i + 1) ++ ((route.drop (i + 1)).take (j - i)).reverse ++ route.drop (j + 1)

/-- The index pairs of `for i in range(n-2): for j in range(i+2, n)`. -/
def two_opt_pairs (n : ℕ) : List (ℕ × ℕ) :=
  (List.range (n - 2)).flatMap (fun i => (List.range' (i + 2) (n - (i + 2))).map (fun j => (i, j)))

/-- One full pass over all swap pairs, applying every strictly improving
reversal immediately (later pairs see the updated route, as in the source). -/
def two_opt_pass (d : Node → Node → ℚ) (hub : Node) :
    List (ℕ × ℕ) → List Node × ℚ × Bool → List Node × ℚ × Bool
  | [], st => st
  | (i, j) :: rest, (best, bestLen, improved) =>
    let newRoute := two_opt_swap best i j
    let newLen := route_length d hub newRoute
    if newLen < bestLen then two_opt_pass d hub rest (newRoute, newLen, true)
    else two_opt_pass d hub rest (best, bestLen, improved)

/-- `while improved and iteration < max_iterations` with the 100-pass cap;
route length is invariant under the swaps, so the pair list is fixed. -/
def two_opt_iterate (d : Node → Node → ℚ) (hub : Node) (n : ℕ) :
    ℕ → List Node × ℚ → List Node × ℚ
  | 0, st => st
  | fuel + 1, st =>
    match two_opt_pass d hub (two_opt_pairs n) (st.1, st.2, false) with
    | (r, l, true) => two_opt_iterate d hub n fuel (r, l)
    | (r, l, false) => (r, l)

/-- `solve_with_2opt_improvement`; the `power_requirements` and `max_power`
parameters are accepted and ignored, exactly as in the source.  Routes of
fewer than 4 nodes pass through unchanged. -/
def solve_with_two_opt_improvement (d : Node → Node → ℚ) (circuits : List Circuit)
    (pw : Node → ℕ) (maxPower : ℕ) : List Circuit :=
  circuits.map (fun c =>
    if c.route.length < 4 then c
    else
      let res := two_opt_iterate d c.hub c.route.length 100 (c.route, c.length)
      { hub := c.hub, hub_index := c.hub_index, route := res.1, power := c.power,
        length := res.2, nodes_count := res.1.length })

/-! ### Ant-colony circuit construction and OR-Tools extraction -/

/-- The probabilistic choices of the ant-colony constructor
(`random.choices(candidates, weights)[0]`, with the deterministic
`candidates[0]` fallback) always return some member of the candidate list;
the selection oracle `sel` designates that member by index. -/
def aco_pick (sel : List Node → ℕ) (l : List Node) : Node :=
  l.getD (sel l % l.length) (0, 0, 0)

/-- The per-hub circuit construction of `solve_with_ant_colony_optimization`
(lines 936-1018): an empty current circuit is started with a
pheromone-chosen node taken from `remaining` with no power check; a nonempty
circuit is extended only by nodes that keep the running power within
`max_power`, and is flushed when none fits.  Each iteration either consumes
a node or flushes a nonempty circuit (the next iteration then consumes), so
`2n + 1` iterations suffice for `n` remaining nodes. -/
def aco_build_loop (d : Node → Node → ℚ) (pw : Node → ℕ) (maxP : ℕ)
    (sel : List Node → ℕ) (hub : Node) (hubIdx : ℕ) :
    ℕ → List Node → List Node → ℕ → List Circuit → List Circuit
  | 0, _, cur, curP, acc =>
    if cur = [] then acc
    else acc ++ [⟨hub, hubIdx, cur, curP, route_length d hub cur, cur.length⟩]
  | fuel + 1, remaining, cur, curP, acc =>
    if remaining = [] then
      if cur = [] then acc
      else acc ++ [⟨hub, hubIdx, cur, curP, route_length d hub cur, cur.length⟩]
    else
      if cur = [] then
        let n := aco_pick sel remaining
        aco_build_loop d pw maxP sel hub hubIdx fuel (remaining.erase n) [n] (pw n) acc
      else
        let feasible := remaining.filter (fun n => decide (curP + pw n ≤ maxP))
        if feasible = [] then
          aco_build_loop d pw maxP sel hub hubIdx fuel remaining [] 0
            (acc ++ [⟨hub, hubIdx, cur, curP, route_length d hub cur, cur.length⟩])
        else
          let n := aco_pick sel feasible
          aco_build_loop d pw maxP sel hub hubIdx fuel (remaining.erase n) (cur ++ [n])
            (curP + pw n) acc

/-- One hub's `while remaining:` loop of the ant-colony strategy;
`remaining = set(hub_nodes)` collapses duplicates. -/
def aco_build_circuits (d : Node → Node → ℚ) (pw : Node → ℕ) (maxP : ℕ)
    (sel : List Node → ℕ) (hub : Node) (hubIdx : ℕ) (hub_nodes : List Node) : List Circuit :=
  aco_build_loop d pw maxP sel hub hubIdx (2 * (pyDedup hub_nodes).length + 1)
    (pyDedup hub_nodes) [] 0 []

/-- The circuit extraction of the OR-Tools strategy (lines 489-513): the
external solver returns one node sequence per vehicle; each nonempty one is
recorded as a circuit whose power is the demand sum accumulated over its
nodes (`route_power += power_requirements[actual_node]`) and whose length
comes from the solver's arc costs (the oracle `len_of`).  The hard capacity
dimension the code posts (`AddDimensionWithVehicleCapacity`, lines 457-468)
bounds every vehicle's demand sum; the solver itself is external to the
repository, so that guarantee enters the bound theorem as a hypothesis. -/
def ortools_extract_circuits (pw : Node → ℕ) (hub : Node) (hubIdx : ℕ)
    (len_of : List Node → ℚ) (vehicle_routes : List (List Node)) : List Circuit :=
  vehicle_routes.filterMap (fun route =>
    if route = [] then none
    else some ⟨hub, hubIdx, route, circuit_power pw route, len_of route, route.length⟩)

/-! ### Exhaustive supply-point search (`optimize_hub_positions`) -/

/-- The elementwise evaluation of one candidate comprehension
`[lo + i * (hi - lo) / (n - 1) for i in range(n)]`, with Python's
ZeroDivisionError semantics (raised even when the numerator is `0.0`). -/
def hub_candidate_list (lo hi : ℚ) (n : ℕ) : List ℕ → Except PyError (List ℚ)
  | [] => .ok []
  | i :: rest =>
    match qdivE ((i : ℚ) * (hi - lo)) ((n : ℚ) - 1) with
    | .error er => .error er
    | .ok q =>
      match hub_candidate_list lo hi n rest with
      | .error er => .error er
      | .ok qs => .ok ((lo + q) :: qs)

def hub_candidate_values (lo hi : ℚ) (n : ℕ) : Except PyError (List ℚ) :=
  hub_candidate_list lo hi n (List.range n)

/-- The four per-side candidate lists of `optimize_hub_positions`
(left, right, bottom, top), generated from the node bounding box. -/
def optimize_hub_position_candidates (nodes : List Node) (positions_per_edge : ℕ)
    (hub_offset : ℚ) : Except PyError (List (List Node)) :=
  match minQE (nodes.map (fun p => p.1)), maxQE (nodes.map (fun p => p.1)),
      minQE (nodes.map (fun p => p.2.1)), maxQE (nodes.map (fun p => p.2.1)) with
  | .ok minX, .ok maxX, .ok minY, .ok maxY =>
    match hub_candidate_values minY maxY positions_per_edge,
        hub_candidate_values minX maxX positions_per_edge with
    | .ok ys, .ok xs =>
      .ok [ys.map (fun y => ((minX - hub_offset, y, 0) : Node)),
        ys.map (fun y => ((maxX + hub_offset, y, 0) : Node)),
        xs.map (fun x => ((x, minY - hub_offset, 0) : Node)),
        xs.map (fun x => ((x, maxY + hub_offset, 0) : Node))]
    | .error er, _ => .error er
    | _, .error er => .error er
  | .error er, _, _, _ => .error er
  | _, .error er, _, _ => .error er
  | _, _, .error er, _ => .error er
  | _, _, _, .error er => .error er

/-! ### Concrete instances used by the claim theorems -/

/-- A trivial distance oracle for instances whose conclusion does not depend
on the metric. -/
def d0 : Node → Node → ℚ := fun _ _ => 0

/-- The 2×3 grid of the spec's example scenario (6 nodes, 7 edges), in the
iteration order of the `__main__` example. -/
def gridNodes : List Node :=
  [(0, 0, 0), (1, 0, 0), (2, 0, 0), (0, 1, 0), (1, 1, 0), (2, 1, 0)]

def gridEdges : List Edge :=
  [((0, 0, 0), (1, 0, 0)), ((1, 0, 0), (2, 0, 0)), ((0, 0, 0), (0, 1, 0)),
   ((1, 0, 0), (1, 1, 0)), ((2, 0, 0), (2, 1, 0)), ((0, 1, 0), (1, 1, 0)),
   ((1, 1, 0), (2, 1, 0))]

/-- A star: five edges from the single hub `(0,0,0)` to five distinct leaves
in row `y = 1`.  The hub then has 5 > 4 outputs but its row carries only
5 ≤ 20 amps: node violations without row violations. -/
def starEdges : List Edge :=
  [((0, 0, 0), (1, 1, 0)), ((0, 0, 0), (2, 1, 0)), ((0, 0, 0), (3, 1, 0)),
   ((0, 0, 0), (4, 1, 0)), ((0, 0, 0), (5, 1, 0))]

def starHubs : List Node := [(0, 0, 0)]

/-- The direction map the pipeline itself hands to
`balance_row_power_and_ports` for the star input. -/
def starDirs : DirMap :=
  (balance_edge_directions starEdges starHubs 4).edge_directions

/-- One edge, one hub: a minimal input on which the dual-constraint balancer
returns normally. -/
def pairEdges : List Edge := [((0, 0, 0), (1, 0, 0))]

def pairHubs : List Node := [(0, 0, 0)]

def pairDirs : DirMap :=
  (balance_edge_directions pairEdges pairHubs 4).edge_directions

/-- A single supply point and a single hub whose demand 1920 W (16 outgoing
edges × 120 W) exceeds the 1800 W circuit budget on its own. -/
def soloHub : Node := (5, 5, 0)

def soloNode : Node := (0, 0, 0)

def soloPw : Node → ℕ := fun _ => 1920

/-- Two parallel edges between the same pair of nodes. -/
def dupA : Node := (0, 0, 0)

def dupB : Node := (1, 0, 0)

def dupEdges : List Edge := [((0, 0, 0), (1, 0, 0)), ((0, 0, 0), (1, 0, 0))]

def dupNodes : List Node := [(0, 0, 0), (1, 0, 0)]

/-- Four hubs of 600 W each for the witness of the amended power bound. -/
def c2pw : Node → ℕ := fun _ => 600

def c2nodes : List Node := [(0, 0, 0), (1, 0, 0), (2, 0, 0), (3, 0, 0)]

/-- Two nodes spanning a nondegenerate bounding box. -/
def c10nodes : List Node := [(0, 0, 0), (4, 3, 0)]

/-- The planner result on the grid with no target count. -/
def gridResult : ArtnetResult :=
  (optimize_artnet_distribution d0 gridNodes gridEdges none).toOption.getD
    ⟨[], [], [], [], 0, 0, ⟨0, 0, 0, 0, 0⟩⟩

/-- The planner result on the grid truncated to a single hub. -/
def gridResult1 : ArtnetResult :=
  (optimize_artnet_distribution d0 gridNodes gridEdges (some 1)).toOption.getD
    ⟨[], [], [], [], 0, 0, ⟨0, 0, 0, 0, 0⟩⟩

/-- The dual-constraint balancer result on the one-edge input with a zero
iteration budget (the while loop is skipped and the report runs on the
initial directions). -/
def pairResult : BRPResult :=
  (balance_row_power_and_ports pairEdges pairHubs pairDirs 20 4 0).toOption.getD
    ⟨[], [], [], [], []⟩

/-! ## Lemmas about the container primitives -/

theorem mem_pyDedupAux {α : Type} [DecidableEq α] (a : α) :
    ∀ (seen l : List α), a ∈ pyDedupAux seen l ↔ a ∈ l ∧ a ∉ seen := by
  intro seen l
  induction l generalizing seen with
  | nil => simp [pyDedupAux]
  | cons x t ih =>
    by_cases hx : x ∈ seen
    · simp only [pyDedupAux, if_pos hx]
      rw [ih seen]
      constructor
      · rintro ⟨h1, h2⟩
        exact ⟨List.mem_cons_of_mem _ h1, h2⟩
      · rintro ⟨h1, h2⟩
        rcases List.mem_cons.mp h1 with rfl | h3
        · exact absurd hx h2
        · exact ⟨h3, h2⟩
    · simp only [pyDedupAux, if_neg hx]
      constructor
      · intro h
        rcases List.mem_cons.mp h with rfl | h2
        · exact ⟨List.mem_cons_self _ _, hx⟩
        · obtain ⟨h3, h4⟩ := (ih (x :: seen)).mp h2
          exact ⟨List.mem_cons_of_mem _ h3, fun hs => h4 (List.mem_cons_of_mem _ hs)⟩
      · rintro ⟨h1, h2⟩
        rcases List.mem_cons.mp h1 with rfl | h3
        · exact List.mem_cons_self _ _
        · by_cases hax : a = x
          · subst hax
            exact List.mem_cons_self _ _
          · refine List.mem_cons_of_mem _ ((ih (x :: seen)).mpr ⟨h3, fun hs => ?_⟩)
            rcases List.mem_cons.mp hs with h5 | h6
            · exact hax h5
            · exact h2 h6

theorem mem_pyDedup {α : Type} [DecidableEq α] {a : α} {l : List α} :
    a ∈ pyDedup l ↔ a ∈ l := by
  simp [pyDedup, mem_pyDedupAux]

theorem pyDedupAux_append_single {α : Type} [DecidableEq α] (e : α) :
    ∀ (seen l : List α),
      pyDedupAux seen (l ++ [e]) =
        pyDedupAux seen l ++ (if e ∈ seen ∨ e ∈ l then [] else [e]) := by
  intro seen l
  induction l generalizing seen with
  | nil => by_cases h : e ∈ seen <;> simp [pyDedupAux, h]
  | cons x t ih =>
    simp only [List.cons_append, pyDedupAux, List.append_eq]
    by_cases hx : x ∈ seen
    · rw [if_pos hx, if_pos hx, ih seen]
      have hiff : (e ∈ seen ∨ e ∈ t) ↔ (e ∈ seen ∨ e ∈ x :: t) := by
        constructor
        · rintro (h | h)
          · exact Or.inl h
          · exact Or.inr (List.mem_cons_of_mem _ h)
        · rintro (h | h)
          · exact Or.inl h
          · rcases List.mem_cons.mp h with rfl | h2
            · exact Or.inl hx
            · exact Or.inr h2
      rw [if_congr hiff rfl rfl]
    · rw [if_neg hx, if_neg hx, ih (x :: seen), List.cons_append]
      have hiff : (e ∈ x :: seen ∨ e ∈ t) ↔ (e ∈ seen ∨ e ∈ x :: t) := by
        constructor
        · rintro (h | h)
          · rcases List.mem_cons.mp h with rfl | h2
            · exact Or.inr (List.mem_cons_self _ _)
            · exact Or.inl h2
          · exact Or.inr (List.mem_cons_of_mem _ h)
        · rintro (h | h)
          · exact Or.inl (List.mem_cons_of_mem _ h)
          · rcases List.mem_cons.mp h with rfl | h2
            · exact Or.inl (List.mem_cons_self _ _)
            · exact Or.inr h2
      rw [if_congr hiff rfl rfl]

theorem pyDedup_append_mem {α : Type} [DecidableEq α] {e : α} {l : List α} (h : e ∈ l) :
    pyDedup (l ++ [e]) = pyDedup l := by
  simp [pyDedup, pyDedupAux_append_single, h]

theorem mem_setA {α β : Type} [DecidableEq α] {k : α} {v : β} :
    ∀ {m : List (α × β)} {p : α × β}, p ∈ setA m k v → p = (k, v) ∨ p ∈ m := by
  intro m
  induction m with
  | nil =>
    intro p hp
    simp only [setA, List.mem_singleton] at hp
    exact Or.inl hp
  | cons q t ih =>
    intro p hp
    obtain ⟨qk, qv⟩ := q
    simp only [setA] at hp
    by_cases hk : qk = k
    · subst hk
      rw [if_pos rfl] at hp
      rcases List.mem_cons.mp hp with rfl | h2
      · exact Or.inl rfl
      · exact Or.inr (List.mem_cons_of_mem _ h2)
    · rw [if_neg hk] at hp
      rcases List.mem_cons.mp hp with rfl | h2
      · exact Or.inr (List.mem_cons_self _ _)
      · rcases ih h2 with h3 | h4
        · exact Or.inl h3
        · exact Or.inr (List.mem_cons_of_mem _ h4)

theorem insStable_perm {α : Type} (lt : α → α → Bool) (x : α) :
    ∀ l : List α, List.Perm (insStable lt x l) (x :: l) := by
  intro l
  induction l with
  | nil => simp [insStable]
  | cons y t ih =>
    by_cases h : lt x y
    · simp [insStable, h]
    · simp only [insStable, if_neg h]
      exact (ih.cons y).trans (List.Perm.swap x y t)

theorem stableSort_foldl_perm {α : Type} (lt : α → α → Bool) :
    ∀ (l acc : List α),
      List.Perm (l.foldl (fun acc x => insStable lt x acc) acc) (acc ++ l) := by
  intro l
  induction l with
  | nil => intro acc; simp
  | cons x t ih =>
    intro acc
    have h1 : (x :: t).foldl (fun acc x => insStable lt x acc) acc
        = t.foldl (fun acc x => insStable lt x acc) (insStable lt x acc) := rfl
    rw [h1]
    refine (ih _).trans ?_
    refine ((insStable_perm lt x acc).append_right t).trans ?_
    simpa using List.perm_middle.symm

theorem stableSort_perm {α : Type} (lt : α → α → Bool) (l : List α) :
    List.Perm (stableSort lt l) l := by
  simpa using stableSort_foldl_perm lt l []

theorem mem_stableSort {α : Type} {lt : α → α → Bool} {l : List α} {a : α} :
    a ∈ stableSort lt l ↔ a ∈ l :=
  (stableSort_perm lt l).mem_iff

theorem lookupA_mem {α β : Type} [DecidableEq α] {k : α} {v : β} :
    ∀ {m : List (α × β)}, lookupA m k = some v → (k, v) ∈ m := by
  intro m
  induction m with
  | nil => intro h; simp [lookupA] at h
  | cons q t ih =>
    intro h
    obtain ⟨qk, qv⟩ := q
    by_cases hk : qk = k
    · subst hk
      have h3 : qv = v := by simpa [lookupA] using h
      subst h3
      exact List.mem_cons_self _ _
    · simp only [lookupA, if_neg hk] at h
      exact List.mem_cons_of_mem _ (ih h)

/-! ## Coverage Planner lemmas -/

/-- An edge is covered by a hub list when some hub is one of its endpoints. -/
def covers (hubs : List Node) (e : Edge) : Prop := ∃ h ∈ hubs, incident h e

theorem best_cover_scan_isSome (hubs : List Node) (uncovered : List Edge) :
    ∀ (nodes : List Node) (acc : Option Node × ℕ), acc.1.isSome →
      (best_cover_scan hubs uncovered nodes acc).1.isSome := by
  intro nodes
  induction nodes with
  | nil => intro acc h; simpa [best_cover_scan] using h
  | cons n rest ih =>
    intro acc h
    simp only [best_cover_scan]
    by_cases hn : n ∈ hubs
    · rw [if_pos hn]; exact ih acc h
    · rw [if_neg hn]
      by_cases hc : acc.2 < uncovered.countP (fun e => decide (incident n e))
      · rw [if_pos hc]; exact ih _ (by simp)
      · rw [if_neg hc]; exact ih acc h

theorem best_cover_scan_none (hubs : List Node) (uncovered : List Edge) :
    ∀ (nodes : List Node),
      (best_cover_scan hubs uncovered nodes (none, 0)).1 = none →
      ∀ n ∈ nodes, n ∉ hubs → uncovered.countP (fun e => decide (incident n e)) = 0 := by
  intro nodes
  induction nodes with
  | nil => intro _ n hn; simp at hn
  | cons m rest ih =>
    intro h n hn hnh
    simp only [best_cover_scan] at h
    by_cases hm : m ∈ hubs
    · rw [if_pos hm] at h
      rcases List.mem_cons.mp hn with rfl | h2
      · exact absurd hm hnh
      · exact ih h n h2 hnh
    · rw [if_neg hm] at h
      by_cases hc : (0 : ℕ) < uncovered.countP (fun e => decide (incident m e))
      · rw [if_pos hc] at h
        have h2 := best_cover_scan_isSome hubs uncovered rest
          (some m, uncovered.countP (fun e => decide (incident m e))) (by simp)
        rw [h] at h2
        simp at h2
      · rw [if_neg hc] at h
        rcases List.mem_cons.mp hn with rfl | h2
        · omega
        · exact ih h n h2 hnh

theorem best_cover_scan_invariant (hubs : List Node) (uncovered : List Edge) :
    ∀ (nodes : List Node) (acc : Option Node × ℕ),
      (acc = (none, 0) ∨ ∃ b, acc.1 = some b ∧
        acc.2 = uncovered.countP (fun e => decide (incident b e)) ∧ 1 ≤ acc.2) →
      (best_cover_scan hubs uncovered nodes acc = (none, 0) ∨
        ∃ b, (best_cover_scan hubs uncovered nodes acc).1 = some b ∧
          (best_cover_scan hubs uncovered nodes acc).2 =
            uncovered.countP (fun e => decide (incident b e)) ∧
          1 ≤ (best_cover_scan hubs uncovered nodes acc).2) := by
  intro nodes
  induction nodes with
  | nil =>
    intro acc h
    rcases h with h | ⟨b, h1, h2, h3⟩
    · exact Or.inl (by simpa [best_cover_scan] using h)
    · exact Or.inr ⟨b, by simpa [best_cover_scan] using ⟨h1, h2, h3⟩⟩
  | cons n rest ih =>
    intro acc h
    simp only [best_cover_scan]
    by_cases hn : n ∈ hubs
    · rw [if_pos hn]; exact ih acc h
    · rw [if_neg hn]
      by_cases hc : acc.2 < uncovered.countP (fun e => decide (incident n e))
      · rw [if_pos hc]
        exact ih _ (Or.inr ⟨n, rfl, rfl, by omega⟩)
      · rw [if_neg hc]; exact ih acc h

theorem best_cover_node_some {nodes hubs : List Node} {uncovered : List Edge}
    {b : Node} {c : ℕ} (h : best_cover_node nodes hubs uncovered = (some b, c)) :
    c = uncovered.countP (fun e => decide (incident b e)) ∧ 1 ≤ c := by
  have h2 := best_cover_scan_invariant hubs uncovered nodes (none, 0) (Or.inl rfl)
  rw [best_cover_node] at h
  rw [h] at h2
  rcases h2 with h3 | ⟨b2, hb2, hc2, hge⟩
  · simp at h3
  · simp only [Option.some.injEq] at hb2
    subst hb2
    exact ⟨hc2, hge⟩

theorem greedy_cover_loop_prefix (nodes : List Node) :
    ∀ (fuel : ℕ) (uncovered : List Edge) (hubs : List Node),
      ∃ ext, greedy_cover_loop nodes fuel uncovered hubs = hubs ++ ext := by
  intro fuel
  induction fuel with
  | zero => intro unc hubs; exact ⟨[], by simp [greedy_cover_loop]⟩
  | succ f ih =>
    intro unc hubs
    simp only [greedy_cover_loop]
    by_cases hu : unc = []
    · rw [if_pos hu]; exact ⟨[], by simp⟩
    · rw [if_neg hu]
      rcases hbc : best_cover_node nodes hubs unc with ⟨ob, c⟩
      cases ob with
      | some b =>
        obtain ⟨ext, hext⟩ := ih (unc.filter fun e => !decide (incident b e)) (hubs ++ [b])
        refine ⟨b :: ext, ?_⟩
        show greedy_cover_loop nodes f (unc.filter fun e => !decide (incident b e))
          (hubs ++ [b]) = hubs ++ b :: ext
        rw [hext]; simp
      | none => exact ⟨[], by simp⟩

theorem greedy_cover_loop_covers (nodes : List Node) :
    ∀ (fuel : ℕ) (uncovered : List Edge) (hubs : List Node),
      uncovered.length ≤ fuel → (∀ e ∈ uncovered, e.1 ∈ nodes) →
      ∀ e ∈ uncovered, covers (greedy_cover_loop nodes fuel uncovered hubs) e := by
  intro fuel
  induction fuel with
  | zero =>
    intro unc hubs hlen _ e he
    rw [List.length_eq_zero.mp (Nat.le_zero.mp hlen)] at he
    simp at he
  | succ f ih =>
    intro unc hubs hlen hend e he
    simp only [greedy_cover_loop]
    by_cases hu : unc = []
    · subst hu; simp at he
    · rw [if_neg hu]
      rcases hbc : best_cover_node nodes hubs unc with ⟨ob, c⟩
      cases ob with
      | none =>
        have hz := best_cover_scan_none hubs unc nodes (by rw [best_cover_node] at hbc; rw [hbc])
        by_cases hmem : e.1 ∈ hubs
        · exact ⟨e.1, hmem, Or.inl rfl⟩
        · have h1 := hz e.1 (hend e he) hmem
          have h2 : 0 < unc.countP (fun e2 => decide (incident e.1 e2)) :=
            List.countP_pos_iff.mpr ⟨e, he, by simp [incident]⟩
          omega
      | some b =>
        obtain ⟨hc, hc1⟩ := best_cover_node_some hbc
        have hdec : (unc.filter fun e2 => !decide (incident b e2)).length < unc.length := by
          refine List.length_filter_lt_length_iff_exists.mpr ?_
          obtain ⟨e0, he0, hpe0⟩ := List.countP_pos_iff.mp (by omega :
            0 < unc.countP (fun e2 => decide (incident b e2)))
          exact ⟨e0, he0, by simpa using of_decide_eq_true hpe0⟩
        have hshow : (match (some b, c) with
            | (some b, _) => greedy_cover_loop nodes f
                (unc.filter fun e2 => !decide (incident b e2)) (hubs ++ [b])
            | (none, _) => hubs) = greedy_cover_loop nodes f
              (unc.filter fun e2 => !decide (incident b e2)) (hubs ++ [b]) := rfl
        by_cases hib : incident b e
        · obtain ⟨ext, hext⟩ := greedy_cover_loop_prefix nodes f
            (unc.filter fun e2 => !decide (incident b e2)) (hubs ++ [b])
          show covers (greedy_cover_loop nodes f
            (unc.filter fun e2 => !decide (incident b e2)) (hubs ++ [b])) e
          rw [hext]
          exact ⟨b, by simp, hib⟩
        · have he2 : e ∈ unc.filter fun e2 => !decide (incident b e2) :=
            List.mem_filter.mpr ⟨he, by simpa using hib⟩
          show covers (greedy_cover_loop nodes f
            (unc.filter fun e2 => !decide (incident b e2)) (hubs ++ [b])) e
          exact ih _ (hubs ++ [b]) (by omega)
            (fun e3 he3 => hend e3 (List.mem_of_mem_filter he3)) e he2

/-- The coverage guarantee of the greedy planner, stated on its entry point. -/
theorem find_minimal_artnet_coverage_covers (nodes : List Node) (edges : List Edge)
    (hend : ∀ e ∈ edges, e.1 ∈ nodes) :
    ∀ e ∈ edges, covers (find_minimal_artnet_coverage nodes edges) e := by
  intro e he
  have he2 : e ∈ pyDedup edges := mem_pyDedup.mpr he
  exact greedy_cover_loop_covers nodes (pyDedup edges).length (pyDedup edges) []
    le_rfl (fun e3 he3 => hend e3 (mem_pyDedup.mp he3)) e he2

/-! ## Power bound lemmas -/

theorem circuit_power_append (pw : Node → ℕ) (c : List Node) (n : Node) :
    circuit_power pw (c ++ [n]) = circuit_power pw c + pw n := by
  simp [circuit_power]

theorem split_loop_bound (pw : Node → ℕ) (maxP : ℕ) :
    ∀ (nodes : List Node) (acc : List (List Node)) (cur : List Node) (curP : ℕ),
      (∀ n ∈ nodes, pw n ≤ maxP) →
      (∀ c ∈ acc, circuit_power pw c ≤ maxP) →
      circuit_power pw cur = curP → curP ≤ maxP →
      ∀ c ∈ split_loop pw maxP nodes acc cur curP, circuit_power pw c ≤ maxP := by
  intro nodes
  induction nodes with
  | nil =>
    intro acc cur curP _ hacc hcur hle c hc
    simp only [split_loop] at hc
    by_cases h : cur = []
    · rw [if_pos h] at hc
      exact hacc c hc
    · rw [if_neg h] at hc
      rcases List.mem_append.mp hc with h1 | h2
      · exact hacc c h1
      · rw [List.mem_singleton.mp h2, hcur]
        exact hle
  | cons n rest ih =>
    intro acc cur curP hn hacc hcur hle c hc
    simp only [split_loop] at hc
    by_cases hfit : curP + pw n ≤ maxP
    · rw [if_pos hfit] at hc
      exact ih acc (cur ++ [n]) (curP + pw n)
        (fun m hm => hn m (List.mem_cons_of_mem _ hm)) hacc
        (by rw [circuit_power_append, hcur]) hfit c hc
    · rw [if_neg hfit] at hc
      by_cases hcurE : cur = []
      · rw [if_pos hcurE] at hc
        exact ih acc [n] (pw n) (fun m hm => hn m (List.mem_cons_of_mem _ hm)) hacc
          (by simp [circuit_power]) (hn n (List.mem_cons_self _ _)) c hc
      · rw [if_neg hcurE] at hc
        refine ih (acc ++ [cur]) [n] (pw n)
          (fun m hm => hn m (List.mem_cons_of_mem _ hm)) ?_
          (by simp [circuit_power]) (hn n (List.mem_cons_self _ _)) c hc
        intro c2 hc2
        rcases List.mem_append.mp hc2 with h1 | h2
        · exact hacc c2 h1
        · rw [List.mem_singleton.mp h2, hcur]
          exact hle

theorem split_into_circuits_bound (pw : Node → ℕ) (maxP : ℕ) (nodes : List Node)
    (h : ∀ n ∈ nodes, pw n ≤ maxP) :
    ∀ c ∈ split_into_circuits pw maxP nodes, circuit_power pw c ≤ maxP :=
  split_loop_bound pw maxP nodes [] [] 0 h (by simp) (by simp [circuit_power]) (Nat.zero_le _)

theorem nnr_select_fold_fits (d : Node → Node → ℚ) (pw : Node → ℕ) (maxP total : ℕ)
    (current : Node) (remaining : List Node) :
    ∀ (l : List Node) (acc : Option (Node × ℚ × ℚ)),
      (∀ x, acc = some x → total + pw x.1 ≤ maxP) →
      ∀ x, (l.foldl (fun best n =>
        if total + pw n ≤ maxP then
          let distance := d current n
          let score :=
            if 1 < remaining.length then distance + minD d n (remaining.erase n) / 2
            else distance
          match best with
          | none => some (n, score, distance)
          | some b => if score < b.2.1 then some (n, score, distance) else best
        else best) acc) = some x → total + pw x.1 ≤ maxP := by
  intro l
  induction l with
  | nil => intro acc hacc x hx; exact hacc x hx
  | cons n rest ih =>
    intro acc hacc x hx
    refine ih _ ?_ x hx
    intro y hy
    simp only [] at hy
    by_cases hfit : total + pw n ≤ maxP
    · rw [if_pos hfit] at hy
      rcases acc with _ | b
      · simp only at hy
        cases hy
        exact hfit
      · simp only at hy
        by_cases hsc : (if 1 < remaining.length then
            d current n + minD d n (remaining.erase n) / 2 else d current n) < b.2.1
        · rw [if_pos hsc] at hy
          cases hy
          exact hfit
        · rw [if_neg hsc] at hy
          exact hacc y hy
    · rw [if_neg hfit] at hy
      exact hacc y hy

theorem nnr_select_fits {d : Node → Node → ℚ} {pw : Node → ℕ} {maxP total : ℕ}
    {current : Node} {remaining : List Node} {b : Node} {dist : ℚ}
    (h : nnr_select d pw maxP total current remaining = some (b, dist)) :
    total + pw b ≤ maxP := by
  unfold nnr_select at h
  rcases Option.map_eq_some'.mp h with ⟨x, hx, hbx⟩
  have h2 := nnr_select_fold_fits d pw maxP total current remaining remaining none
    (by intro y hy; cases hy) x hx
  have : b = x.1 := by
    cases hbx
    rfl
  rw [this]
  exact h2

theorem nnr_loop_bound (d : Node → Node → ℚ) (pw : Node → ℕ) (maxP : ℕ) :
    ∀ (fuel : ℕ) (remaining : List Node) (current : Node) (route : List Node)
      (total : ℕ) (len : ℚ), total ≤ maxP →
      (nnr_loop d pw maxP fuel remaining current route total len).power ≤ maxP := by
  intro fuel
  induction fuel with
  | zero => intro _ _ _ total _ h; exact h
  | succ f ih =>
    intro remaining current route total len h
    simp only [nnr_loop]
    by_cases hr : remaining = []
    · rw [if_pos hr]
      exact h
    · rw [if_neg hr]
      rcases hsel : nnr_select d pw maxP total current remaining with _ | ⟨b, bdist⟩
      · exact h
      · exact ih (remaining.erase b) b (route ++ [b]) (total + pw b) (len + bdist)
          (nnr_select_fits hsel)

theorem nearest_neighbor_route_bound (d : Node → Node → ℚ) (hub : Node)
    (available : List Node) (pw : Node → ℕ) (maxP : ℕ) :
    (nearest_neighbor_route d hub available pw maxP).power ≤ maxP := by
  unfold nearest_neighbor_route
  by_cases h : available = []
  · rw [if_pos h]
    exact Nat.zero_le _
  · rw [if_neg h]
    exact nnr_loop_bound d pw maxP _ _ hub [] 0 0 (Nat.zero_le _)

theorem aco_pick_mem (sel : List Node → ℕ) {l : List Node} (h : l ≠ []) :
    aco_pick sel l ∈ l := by
  have hlen : 0 < l.length := List.length_pos.mpr h
  have hmod : sel l % l.length < l.length := Nat.mod_lt _ hlen
  unfold aco_pick
  rw [List.getD_eq_getElem l _ hmod]
  exact List.getElem_mem hmod

theorem aco_build_loop_bound (d : Node → Node → ℚ) (pw : Node → ℕ) (maxP : ℕ)
    (sel : List Node → ℕ) (hub : Node) (hubIdx : ℕ) :
    ∀ fuel remaining cur curP acc,
      (∀ n ∈ remaining, pw n ≤ maxP) →
      curP = circuit_power pw cur →
      (cur ≠ [] → curP ≤ maxP) →
      (∀ c ∈ acc, circuit_power pw c.route ≤ maxP) →
      ∀ c ∈ aco_build_loop d pw maxP sel hub hubIdx fuel remaining cur curP acc,
        circuit_power pw c.route ≤ maxP := by
  intro fuel
  induction fuel with
  | zero =>
    intro remaining cur curP acc hrem hcp hbound hacc c hc
    unfold aco_build_loop at hc
    by_cases hcur : cur = []
    · rw [if_pos hcur] at hc
      exact hacc c hc
    · rw [if_neg hcur] at hc
      rcases List.mem_append.mp hc with h1 | h1
      · exact hacc c h1
      · have h2 := List.mem_singleton.mp h1
        rw [h2]
        have h3 := hbound hcur
        rw [hcp] at h3
        exact h3
  | succ fuel ih =>
    intro remaining cur curP acc hrem hcp hbound hacc c hc
    unfold aco_build_loop at hc
    by_cases hrm : remaining = []
    · rw [if_pos hrm] at hc
      by_cases hcur : cur = []
      · rw [if_pos hcur] at hc
        exact hacc c hc
      · rw [if_neg hcur] at hc
        rcases List.mem_append.mp hc with h1 | h1
        · exact hacc c h1
        · have h2 := List.mem_singleton.mp h1
          rw [h2]
          have h3 := hbound hcur
          rw [hcp] at h3
          exact h3
    · rw [if_neg hrm] at hc
      by_cases hcur : cur = []
      · rw [if_pos hcur] at hc
        dsimp only at hc
        refine ih (remaining.erase (aco_pick sel remaining)) [aco_pick sel remaining]
          (pw (aco_pick sel remaining)) acc ?_ ?_ ?_ hacc c hc
        · intro n hn
          exact hrem n (List.mem_of_mem_erase hn)
        · simp [circuit_power]
        · intro _
          exact hrem _ (aco_pick_mem sel hrm)
      · rw [if_neg hcur] at hc
        dsimp only at hc
        by_cases hf : remaining.filter (fun n => decide (curP + pw n ≤ maxP)) = []
        · rw [if_pos hf] at hc
          refine ih remaining [] 0 _ hrem (by simp [circuit_power])
            (fun hne => absurd rfl hne) ?_ c hc
          intro c2 hc2
          rcases List.mem_append.mp hc2 with h1 | h1
          · exact hacc c2 h1
          · have h2 := List.mem_singleton.mp h1
            rw [h2]
            have h3 := hbound hcur
            rw [hcp] at h3
            exact h3
        · rw [if_neg hf] at hc
          have hnmem := aco_pick_mem sel hf
          have hfit : curP + pw (aco_pick sel
              (remaining.filter (fun n => decide (curP + pw n ≤ maxP)))) ≤ maxP :=
            of_decide_eq_true (List.mem_filter.mp hnmem).2
          refine ih _ _ _ acc ?_ ?_ ?_ hacc c hc
          · intro n hn
            exact hrem n (List.mem_of_mem_erase hn)
          · rw [circuit_power_append, ← hcp]
          · intro _
            exact hfit

theorem aco_build_circuits_bound (d : Node → Node → ℚ) (pw : Node → ℕ) (maxP : ℕ)
    (sel : List Node → ℕ) (hub : Node) (hubIdx : ℕ) (hub_nodes : List Node)
    (h : ∀ n ∈ hub_nodes, pw n ≤ maxP) :
    ∀ c ∈ aco_build_circuits d pw maxP sel hub hubIdx hub_nodes,
      circuit_power pw c.route ≤ maxP := by
  intro c hc
  exact aco_build_loop_bound d pw maxP sel hub hubIdx _ _ _ _ _
    (fun n hn => h n (mem_pyDedup.mp hn)) (by simp [circuit_power])
    (fun hne => absurd rfl hne) (fun c2 hc2 => absurd hc2 (List.not_mem_nil c2)) c hc

theorem ortools_extract_circuits_bound (pw : Node → ℕ) (maxP : ℕ) (hub : Node)
    (hubIdx : ℕ) (len_of : List Node → ℚ) (vroutes : List (List Node))
    (hcap : ∀ route ∈ vroutes, circuit_power pw route ≤ maxP) :
    ∀ c ∈ ortools_extract_circuits pw hub hubIdx len_of vroutes,
      circuit_power pw c.route ≤ maxP := by
  intro c hc
  unfold ortools_extract_circuits at hc
  obtain ⟨route, hr, hmk⟩ := List.mem_filterMap.mp hc
  by_cases hre : route = []
  · rw [if_pos hre] at hmk
    cases hmk
  · rw [if_neg hre] at hmk
    injection hmk with hmk
    rw [← hmk]
    exact hcap route hr

/-! ## 2-opt lemmas -/

theorem two_opt_swap_perm (route : List Node) {i j : ℕ} (hij : i ≤ j) :
    List.Perm (two_opt_swap route i j) route := by
  unfold two_opt_swap
  conv_rhs => rw [← List.take_append_drop (i + 1) route]
  rw [List.append_assoc]
  refine List.Perm.append_left _ ?_
  have hdd : (route.drop (i + 1)).drop (j - i) = route.drop (j + 1) := by
    rw [List.drop_drop]
    congr 1
    omega
  conv_rhs => rw [← List.take_append_drop (j - i) (route.drop (i + 1)), hdd]
  exact (List.reverse_perm _).append_right _

theorem two_opt_pairs_le {n : ℕ} : ∀ p ∈ two_opt_pairs n, p.1 ≤ p.2 := by
  intro p hp
  simp only [two_opt_pairs, List.mem_flatMap, List.mem_map, List.mem_range] at hp
  obtain ⟨i, _, j, hj, heq⟩ := hp
  obtain ⟨i2, hi2, he2⟩ := List.mem_range'.mp hj
  subst heq
  omega

theorem two_opt_pass_invariant (d : Node → Node → ℚ) (hub : Node) :
    ∀ (pairs : List (ℕ × ℕ)) (best : List Node) (bestLen : ℚ) (imp : Bool)
      (R : List Node) (L : ℚ), (∀ p ∈ pairs, p.1 ≤ p.2) →
      List.Perm best R → bestLen ≤ L →
      List.Perm (two_opt_pass d hub pairs (best, bestLen, imp)).1 R ∧
        (two_opt_pass d hub pairs (best, bestLen, imp)).2.1 ≤ L := by
  intro pairs
  induction pairs with
  | nil =>
    intro best bestLen imp R L _ hperm hle
    exact ⟨hperm, hle⟩
  | cons ij rest ih =>
    intro best bestLen imp R L hp hperm hle
    obtain ⟨i, j⟩ := ij
    simp only [two_opt_pass]
    by_cases hbetter : route_length d hub (two_opt_swap best i j) < bestLen
    · rw [if_pos hbetter]
      exact ih _ _ _ R L (fun p hp2 => hp p (List.mem_cons_of_mem _ hp2))
        ((two_opt_swap_perm best (hp (i, j) (List.mem_cons_self _ _))).trans hperm)
        (by linarith)
    · rw [if_neg hbetter]
      exact ih _ _ _ R L (fun p hp2 => hp p (List.mem_cons_of_mem _ hp2)) hperm hle

theorem two_opt_iterate_invariant (d : Node → Node → ℚ) (hub : Node) (n : ℕ) :
    ∀ (fuel : ℕ) (best R : List Node) (bestLen L : ℚ),
      List.Perm best R → bestLen ≤ L →
      List.Perm (two_opt_iterate d hub n fuel (best, bestLen)).1 R ∧
        (two_opt_iterate d hub n fuel (best, bestLen)).2 ≤ L := by
  intro fuel
  induction fuel with
  | zero =>
    intro best R bestLen L hperm hle
    exact ⟨hperm, hle⟩
  | succ f ih =>
    intro best R bestLen L hperm hle
    simp only [two_opt_iterate]
    obtain ⟨hp1, hp2⟩ := two_opt_pass_invariant d hub (two_opt_pairs n) best bestLen false R L
      two_opt_pairs_le hperm hle
    rcases hpass : two_opt_pass d hub (two_opt_pairs n) (best, bestLen, false)
      with ⟨r, l, imp⟩
    rw [hpass] at hp1 hp2
    cases imp
    · exact ⟨hp1, hp2⟩
    · exact ih r R l L hp1 hp2

theorem two_opt_circuit_spec (d : Node → Node → ℚ) (pw : Node → ℕ) (maxP : ℕ) (c : Circuit) :
    ∀ c2 ∈ solve_with_two_opt_improvement d [c] pw maxP,
      c2.length ≤ c.length ∧ List.Perm c2.route c.route := by
  intro c2 hc2
  simp only [solve_with_two_opt_improvement, List.map_cons, List.map_nil,
    List.mem_singleton] at hc2
  subst hc2
  by_cases hlen : c.route.length < 4
  · rw [if_pos hlen]
    exact ⟨le_refl _, List.Perm.refl _⟩
  · rw [if_neg hlen]
    obtain ⟨h1, h2⟩ := two_opt_iterate_invariant d c.hub c.route.length 100 c.route c.route
      c.length c.length (List.Perm.refl _) (le_refl _)
    exact ⟨h2, h1⟩

theorem solve_with_two_opt_improvement_forall (d : Node → Node → ℚ) (pw : Node → ℕ)
    (maxP : ℕ) :
    ∀ circuits : List Circuit,
      List.Forall₂ (fun c c2 => c2.length ≤ c.length ∧ List.Perm c2.route c.route)
        circuits (solve_with_two_opt_improvement d circuits pw maxP) := by
  intro circuits
  induction circuits with
  | nil => exact List.Forall₂.nil
  | cons c rest ih =>
    refine List.Forall₂.cons ?_ ih
    have := two_opt_circuit_spec d pw maxP c
    simp only [solve_with_two_opt_improvement, List.map_cons, List.map_nil,
      List.mem_singleton, forall_eq] at this
    exact this

/-! ## Supply-point candidate lemmas -/

theorem minQE_ok {l : List ℚ} (h : l ≠ []) : ∃ v, minQE l = .ok v := by
  cases l with
  | nil => exact absurd rfl h
  | cons x t => exact ⟨t.foldl min x, rfl⟩

theorem maxQE_ok {l : List ℚ} (h : l ≠ []) : ∃ v, maxQE l = .ok v := by
  cases l with
  | nil => exact absurd rfl h
  | cons x t => exact ⟨t.foldl max x, rfl⟩

theorem hub_candidate_list_ok (lo hi : ℚ) (n : ℕ) (hn : 2 ≤ n) :
    ∀ l : List ℕ, ∃ vs, hub_candidate_list lo hi n l = .ok vs ∧ vs.length = l.length := by
  intro l
  have hden : ((n : ℚ) - 1) ≠ 0 := by
    have h2 : (2 : ℚ) ≤ (n : ℚ) := by exact_mod_cast hn
    linarith
  induction l with
  | nil => exact ⟨[], rfl, rfl⟩
  | cons i rest ih =>
    obtain ⟨vs, hvs, hlen⟩ := ih
    refine ⟨(lo + (i : ℚ) * (hi - lo) / ((n : ℚ) - 1)) :: vs, ?_, by simp [hlen]⟩
    simp only [hub_candidate_list, qdivE, if_neg hden, hvs]

theorem hub_candidate_values_ok (lo hi : ℚ) (n : ℕ) (hn : 2 ≤ n) :
    ∃ vs, hub_candidate_values lo hi n = .ok vs ∧ vs.length = n := by
  obtain ⟨vs, hvs, hlen⟩ := hub_candidate_list_ok lo hi n hn (List.range n)
  exact ⟨vs, hvs, by simpa using hlen⟩

theorem hub_candidate_values_one (lo hi : ℚ) :
    hub_candidate_values lo hi 1 = .error .zeroDivision := by
  have h0 : ((1 : ℕ) : ℚ) - 1 = 0 := by norm_num
  simp [hub_candidate_values, hub_candidate_list, List.range_succ, qdivE, h0]

theorem optimize_hub_position_candidates_ok (nodes : List Node) (n : ℕ) (off : ℚ)
    (hne : nodes ≠ []) (hn : 2 ≤ n) :
    ∃ ls, optimize_hub_position_candidates nodes n off = .ok ls ∧
      ls.length = 4 ∧ ∀ l ∈ ls, l.length = n := by
  obtain ⟨a1, h1⟩ := minQE_ok (l := nodes.map (fun p => p.1)) (by simpa using hne)
  obtain ⟨a2, h2⟩ := maxQE_ok (l := nodes.map (fun p => p.1)) (by simpa using hne)
  obtain ⟨a3, h3⟩ := minQE_ok (l := nodes.map (fun p => p.2.1)) (by simpa using hne)
  obtain ⟨a4, h4⟩ := maxQE_ok (l := nodes.map (fun p => p.2.1)) (by simpa using hne)
  obtain ⟨ys, hys, hyl⟩ := hub_candidate_values_ok a3 a4 n hn
  obtain ⟨xs, hxs, hxl⟩ := hub_candidate_values_ok a1 a2 n hn
  refine ⟨[ys.map (fun y => ((a1 - off, y, 0) : Node)),
    ys.map (fun y => ((a2 + off, y, 0) : Node)),
    xs.map (fun x => ((x, a3 - off, 0) : Node)),
    xs.map (fun x => ((x, a4 + off, 0) : Node))], ?_, by simp, ?_⟩
  · unfold optimize_hub_position_candidates
    rw [h1, h2, h3, h4]
    simp only [hys, hxs]
  · intro l hl
    simp only [List.mem_cons, List.mem_singleton, List.not_mem_nil, or_false] at hl
    rcases hl with rfl | rfl | rfl | rfl
    · simpa using hyl
    · simpa using hyl
    · simpa using hxl
    · simpa using hxl

theorem optimize_hub_position_candidates_one (nodes : List Node) (off : ℚ)
    (hne : nodes ≠ []) :
    optimize_hub_position_candidates nodes 1 off = .error .zeroDivision := by
  obtain ⟨a1, h1⟩ := minQE_ok (l := nodes.map (fun p => p.1)) (by simpa using hne)
  obtain ⟨a2, h2⟩ := maxQE_ok (l := nodes.map (fun p => p.1)) (by simpa using hne)
  obtain ⟨a3, h3⟩ := minQE_ok (l := nodes.map (fun p => p.2.1)) (by simpa using hne)
  obtain ⟨a4, h4⟩ := maxQE_ok (l := nodes.map (fun p => p.2.1)) (by simpa using hne)
  unfold optimize_hub_position_candidates
  rw [h1, h2, h3, h4]
  simp only [hub_candidate_values_one]

/-! ## Direction-source invariant: first stage -/

/-- The hub-source invariant of the spec: a direction entry's data source is
either absent or an ArtNet node. -/
def DirsInv (artnet : List Node) (m : DirMap) : Prop :=
  ∀ p ∈ m, ∀ s : Node, p.2.1 = some s → s ∈ artnet

/-- Hub lists appearing as neighbor-map values. -/
def NeighborsInv (artnet : List Node) (m : List (Node × List Node)) : Prop :=
  ∀ p ∈ m, ∀ v ∈ p.2, v ∈ artnet

def OutKeysInv (artnet : List Node) (m : OutMap) : Prop :=
  ∀ p ∈ m, p.1 ∈ artnet

def keysNodup {α β : Type} [DecidableEq α] (m : List (α × β)) : Prop :=
  (m.map Prod.fst).Nodup

theorem foldl_inv {α σ : Type} (P : σ → Prop) (f : σ → α → σ)
    (hf : ∀ s a, P s → P (f s a)) :
    ∀ (l : List α) (s : σ), P s → P (l.foldl f s) := by
  intro l
  induction l with
  | nil => intro s h; exact h
  | cons a t ih => intro s h; exact ih (f s a) (hf s a h)

theorem dirsInv_setA {artnet : List Node} {m : DirMap} {k : Edge} {v : Dir}
    (hm : DirsInv artnet m) (hv : ∀ s : Node, v.1 = some s → s ∈ artnet) :
    DirsInv artnet (setA m k v) := by
  intro p hp s hs
  rcases mem_setA hp with rfl | h2
  · exact hv s hs
  · exact hm p h2 s hs

theorem neighborsInv_getDA {artnet : List Node} {m : List (Node × List Node)} {k : Node}
    (hm : NeighborsInv artnet m) : ∀ v ∈ getDA m k [], v ∈ artnet := by
  intro v hv
  unfold getDA at hv
  rcases hl : lookupA m k with _ | vs
  · rw [hl] at hv; simp at hv
  · rw [hl] at hv
    exact hm (k, vs) (lookupA_mem hl) v hv

theorem neighborsInv_setA {artnet : List Node} {m : List (Node × List Node)} {k : Node}
    {v : List Node} (hm : NeighborsInv artnet m) (hv : ∀ x ∈ v, x ∈ artnet) :
    NeighborsInv artnet (setA m k v) := by
  intro p hp x hx
  rcases mem_setA hp with rfl | h2
  · exact hv x hx
  · exact hm p h2 x hx

theorem neighbors_step_inv (artnet : List Node) (m : List (Node × List Node)) (e : Edge)
    (hm : NeighborsInv artnet m) : NeighborsInv artnet (neighbors_step artnet m e) := by
  unfold neighbors_step
  by_cases h1 : e.1 ∈ artnet
  · simp only [if_pos h1]
    have hm1 : NeighborsInv artnet (setA m e.2 (getDA m e.2 [] ++ [e.1])) := by
      refine neighborsInv_setA hm ?_
      intro x hx
      rcases List.mem_append.mp hx with h2 | h3
      · exact neighborsInv_getDA hm x h2
      · rw [List.mem_singleton.mp h3]; exact h1
    by_cases h2 : e.2 ∈ artnet
    · simp only [if_pos h2]
      refine neighborsInv_setA hm1 ?_
      intro x hx
      rcases List.mem_append.mp hx with h3 | h4
      · exact neighborsInv_getDA hm1 x h3
      · rw [List.mem_singleton.mp h4]; exact h2
    · simpa only [if_neg h2] using hm1
  · simp only [if_neg h1]
    by_cases h2 : e.2 ∈ artnet
    · simp only [if_pos h2]
      refine neighborsInv_setA hm ?_
      intro x hx
      rcases List.mem_append.mp hx with h3 | h4
      · exact neighborsInv_getDA hm x h3
      · rw [List.mem_singleton.mp h4]; exact h2
    · simpa only [if_neg h2] using hm

theorem node_to_artnet_neighbors_inv (edges : List Edge) (artnet : List Node) :
    NeighborsInv artnet (node_to_artnet_neighbors edges artnet) :=
  foldl_inv (NeighborsInv artnet) (neighbors_step artnet)
    (fun m e hm => neighbors_step_inv artnet m e hm) edges [] (by intro p hp; simp at hp)

theorem neighbors_dedup_step_inv (artnet : List Node) (m : List (Node × List Node)) (e : Edge)
    (hm : NeighborsInv artnet m) : NeighborsInv artnet (neighbors_dedup_step artnet m e) := by
  unfold neighbors_dedup_step
  have key : ∀ (m2 : List (Node × List Node)) (a b : Node), NeighborsInv artnet m2 →
      a ∈ artnet →
      NeighborsInv artnet (if a ∈ getDA m2 b [] then m2
        else setA m2 b (getDA m2 b [] ++ [a])) := by
    intro m2 a b hm2 ha
    by_cases hmem : a ∈ getDA m2 b []
    · simpa only [if_pos hmem] using hm2
    · simp only [if_neg hmem]
      refine neighborsInv_setA hm2 ?_
      intro x hx
      rcases List.mem_append.mp hx with h3 | h4
      · exact neighborsInv_getDA hm2 x h3
      · rw [List.mem_singleton.mp h4]; exact ha
  by_cases h1 : e.1 ∈ artnet
  · simp only [if_pos h1]
    have hm1 := key m e.1 e.2 hm h1
    by_cases h2 : e.2 ∈ artnet
    · simp only [if_pos h2]
      exact key _ e.2 e.1 hm1 h2
    · simpa only [if_neg h2] using hm1
  · simp only [if_neg h1]
    by_cases h2 : e.2 ∈ artnet
    · simp only [if_pos h2]
      exact key m e.2 e.1 hm h2
    · simpa only [if_neg h2] using hm

theorem neighbors_map_dedup_inv (edges : List Edge) (artnet : List Node) :
    NeighborsInv artnet (neighbors_map_dedup edges artnet) :=
  foldl_inv (NeighborsInv artnet) (neighbors_dedup_step artnet)
    (fun m e hm => neighbors_dedup_step_inv artnet m e hm) edges [] (by intro p hp; simp at hp)

theorem neighbors_lookup_sub {artnet : List Node} {m : List (Node × List Node)} {t : Node}
    {alts : List Node} (hm : NeighborsInv artnet m) (hl : lookupA m t = some alts) :
    ∀ a ∈ alts, a ∈ artnet :=
  hm (t, alts) (lookupA_mem hl)

theorem mem_keys_setA {α β : Type} [DecidableEq α] {m : List (α × β)} {k a : α} {v : β}
    (h : a ∈ (setA m k v).map Prod.fst) : a = k ∨ a ∈ m.map Prod.fst := by
  obtain ⟨p, hp, hpa⟩ := List.mem_map.mp h
  rcases mem_setA hp with rfl | h2
  · exact Or.inl hpa.symm
  · exact Or.inr (List.mem_map.mpr ⟨p, h2, hpa⟩)

theorem keysNodup_setA {α β : Type} [DecidableEq α] {k : α} {v : β} :
    ∀ {m : List (α × β)}, keysNodup m → keysNodup (setA m k v) := by
  intro m
  induction m with
  | nil => intro _; simp [keysNodup, setA]
  | cons q t ih =>
    intro hm
    obtain ⟨qk, qv⟩ := q
    have hm2 : keysNodup t := (List.nodup_cons.mp hm).2
    have hqk : qk ∉ t.map Prod.fst := (List.nodup_cons.mp hm).1
    by_cases hk : qk = k
    · subst hk
      simp only [keysNodup, setA, if_pos rfl, List.map_cons]
      exact List.nodup_cons.mpr ⟨hqk, hm2⟩
    · simp only [keysNodup, setA, if_neg hk, List.map_cons]
      refine List.nodup_cons.mpr ⟨?_, ih hm2⟩
      intro hqk2
      rcases mem_keys_setA hqk2 with h1 | h2
      · exact hk h1
      · exact hqk h2

theorem lookupA_eq_of_mem {α β : Type} [DecidableEq α] {k : α} {v : β} :
    ∀ {m : List (α × β)}, keysNodup m → (k, v) ∈ m → lookupA m k = some v := by
  intro m
  induction m with
  | nil => intro _ h; simp at h
  | cons q t ih =>
    intro hm hkv
    obtain ⟨qk, qv⟩ := q
    rcases List.mem_cons.mp hkv with heq | h2
    · cases heq
      simp [lookupA]
    · have hqk : qk ∉ t.map Prod.fst := (List.nodup_cons.mp hm).1
      have hne : qk ≠ k := by
        intro h
        subst h
        exact hqk (List.mem_map.mpr ⟨(qk, v), h2, rfl⟩)
      simp only [lookupA, if_neg hne]
      exact ih (List.nodup_cons.mp hm).2 h2

theorem lookupA_setA_self {α β : Type} [DecidableEq α] {k : α} {v : β} :
    ∀ m : List (α × β), lookupA (setA m k v) k = some v := by
  intro m
  induction m with
  | nil => simp [setA, lookupA]
  | cons q t ih =>
    obtain ⟨qk, qv⟩ := q
    by_cases hk : qk = k
    · subst hk
      simp [setA, lookupA]
    · simp only [setA, if_neg hk, lookupA, if_neg hk]
      exact ih

theorem lookupA_setA_ne {α β : Type} [DecidableEq α] {k k2 : α} {v : β} (hne : k2 ≠ k) :
    ∀ m : List (α × β), lookupA (setA m k v) k2 = lookupA m k2 := by
  intro m
  induction m with
  | nil => simp [setA, lookupA, if_neg (Ne.symm hne)]
  | cons q t ih =>
    obtain ⟨qk, qv⟩ := q
    by_cases hk : qk = k
    · subst hk
      have : qk ≠ k2 := fun h => hne h.symm
      simp [setA, lookupA, this]
    · by_cases hk2 : qk = k2
      · subst hk2
        simp [setA, lookupA, hk]
      · simp only [setA, if_neg hk, lookupA, if_neg hk2]
        exact ih

theorem source_ok_of_mem {artnet : List Node} {a : Node} (ha : a ∈ artnet)
    (x : Option Node) : ∀ s : Node, ((some a, x) : Dir).1 = some s → s ∈ artnet := by
  intro s hs
  simp only at hs
  exact Option.some.inj hs ▸ ha

theorem outKeysInv_setA {artnet : List Node} {m : OutMap} {k : Node} {v : ℤ}
    (hm : OutKeysInv artnet m) (hk : k ∈ artnet) : OutKeysInv artnet (setA m k v) := by
  intro p hp
  rcases mem_setA hp with rfl | h2
  exacts [hk, hm p h2]

theorem bed_first_step_inv (artnet : List Node) (st : DirMap × OutMap) (e : Edge)
    (h : DirsInv artnet st.1 ∧ keysNodup st.1 ∧ OutKeysInv artnet st.2) :
    DirsInv artnet (bed_first_step artnet st e).1 ∧
      keysNodup (bed_first_step artnet st e).1 ∧
      OutKeysInv artnet (bed_first_step artnet st e).2 := by
  obtain ⟨h1, h2, h3⟩ := h
  unfold bed_first_step
  by_cases hb : e.1 ∈ artnet ∧ e.2 ∈ artnet
  · rw [if_pos hb]
    by_cases hle : getDA st.2 e.1 0 ≤ getDA st.2 e.2 0
    · rw [if_pos hle]
      exact ⟨dirsInv_setA h1 (source_ok_of_mem hb.1 _), keysNodup_setA h2,
        outKeysInv_setA h3 hb.1⟩
    · rw [if_neg hle]
      exact ⟨dirsInv_setA h1 (source_ok_of_mem hb.2 _), keysNodup_setA h2,
        outKeysInv_setA h3 hb.2⟩
  · rw [if_neg hb]
    by_cases h1m : e.1 ∈ artnet
    · rw [if_pos h1m]
      exact ⟨dirsInv_setA h1 (source_ok_of_mem h1m _), keysNodup_setA h2,
        outKeysInv_setA h3 h1m⟩
    · rw [if_neg h1m]
      by_cases h2m : e.2 ∈ artnet
      · rw [if_pos h2m]
        exact ⟨dirsInv_setA h1 (source_ok_of_mem h2m _), keysNodup_setA h2,
          outKeysInv_setA h3 h2m⟩
      · rw [if_neg h2m]
        refine ⟨dirsInv_setA h1 ?_, keysNodup_setA h2, h3⟩
        intro s hs
        simp at hs

theorem bed_first_pass_inv (edges : List Edge) (artnet : List Node) :
    DirsInv artnet (bed_first_pass edges artnet).1 ∧
      keysNodup (bed_first_pass edges artnet).1 ∧
      OutKeysInv artnet (bed_first_pass edges artnet).2 := by
  refine foldl_inv
    (fun st => DirsInv artnet st.1 ∧ keysNodup st.1 ∧ OutKeysInv artnet st.2)
    (bed_first_step artnet) (fun st e h => bed_first_step_inv artnet st e h) edges _ ?_
  refine ⟨by intro p hp; simp at hp, by simp [keysNodup], ?_⟩
  intro p hp
  obtain ⟨n, hn, hpn⟩ := List.mem_map.mp hp
  rw [← hpn]
  exact mem_pyDedup.mp hn

/-- At collection time, a direct-reversal entry's edge points at two hubs. -/
def BothHub (artnet : List Node) (m : DirMap) (e : Edge) : Prop :=
  ∃ a b, lookupA m e = some (some a, some b) ∧ a ∈ artnet ∧ b ∈ artnet

def ItemsOk (artnet : List Node) (m : DirMap)
    (items : List (Edge × RevKind × Node × ℤ)) : Prop :=
  ∀ item ∈ items, (item.2.1 = RevKind.direct → BothHub artnet m item.1) ∧
    (item.2.1 = RevKind.redirect → item.2.2.1 ∈ artnet)

theorem collect_reversible_spec (dirs : DirMap) (nmap : List (Node × List Node))
    (artnet : List Node) (outs : OutMap) (maxOut : ℤ) (ov : Node)
    (hnd : keysNodup dirs) (hov : ov ∈ artnet) (hnm : NeighborsInv artnet nmap) :
    ItemsOk artnet dirs (collect_reversible dirs nmap artnet outs maxOut ov) := by
  intro item hitem
  obtain ⟨p, hp, hip⟩ := List.mem_flatMap.mp hitem
  obtain ⟨e, ds, de⟩ := p
  rcases ds with _ | s
  · simp [collect_reversible_entry] at hip
  · simp only [collect_reversible_entry] at hip
    by_cases hso : s = ov
    · rw [if_pos hso] at hip
      rcases de with _ | t
      · simp at hip
      · dsimp only at hip
        by_cases hta : t ∈ artnet
        · rw [if_pos hta] at hip
          rw [List.mem_singleton.mp hip]
          refine ⟨fun _ => ⟨s, t, lookupA_eq_of_mem hnd hp, hso ▸ hov, hta⟩, fun h => nomatch h⟩
        · rw [if_neg hta] at hip
          rcases hl : lookupA nmap t with _ | alts
          · rw [hl] at hip; simp at hip
          · rw [hl] at hip
            obtain ⟨alt, halt, hfm⟩ := List.mem_filterMap.mp hip
            by_cases hne : alt ≠ ov
            · rw [if_pos hne] at hfm
              by_cases hcap : 0 < maxOut - getDA outs alt 0
              · rw [if_pos hcap] at hfm
                rw [← Option.some.inj hfm]
                exact ⟨fun h => (nomatch h), fun _ => neighbors_lookup_sub hnm hl alt halt⟩
              · rw [if_neg hcap] at hfm; cases hfm
            · rw [if_neg hne] at hfm; cases hfm
    · rw [if_neg hso] at hip
      simp at hip

theorem apply_reversible_inv (maxOut : ℤ) (ov : Node) (artnet : List Node) :
    ∀ (items : List (Edge × RevKind × Node × ℤ)) (dirs : DirMap) (outs : OutMap),
      DirsInv artnet dirs → keysNodup dirs → ItemsOk artnet dirs items →
      DirsInv artnet (apply_reversible maxOut ov items (dirs, outs)).1 ∧
        keysNodup (apply_reversible maxOut ov items (dirs, outs)).1 := by
  intro items
  induction items with
  | nil => intro dirs outs hinv hnd _; exact ⟨hinv, hnd⟩
  | cons item rest ih =>
    intro dirs outs hinv hnd hitems
    obtain ⟨e, kind, other, cap⟩ := item
    simp only [apply_reversible]
    by_cases hbreak : getDA outs ov 0 ≤ maxOut
    · rw [if_pos hbreak]
      exact ⟨hinv, hnd⟩
    · rw [if_neg hbreak]
      by_cases hcap : 0 < cap
      · rw [if_pos hcap]
        cases kind with
        | direct =>
          obtain ⟨a, b, hl, ha, hb⟩ :=
            (hitems (e, RevKind.direct, other, cap) (List.mem_cons_self _ _)).1 rfl
          have hold : (lookupA dirs e).getD (none, none) = (some a, some b) := by
            rw [hl]; rfl
          rw [hold]
          refine ih _ _ (dirsInv_setA hinv (source_ok_of_mem hb _)) (keysNodup_setA hnd) ?_
          intro item2 h2
          have horig := hitems item2 (List.mem_cons_of_mem _ h2)
          refine ⟨fun hdir => ?_, horig.2⟩
          by_cases heq : item2.1 = e
          · rw [heq, BothHub, lookupA_setA_self]
            exact ⟨b, a, rfl, hb, ha⟩
          · obtain ⟨a2, b2, hl2, ha2, hb2⟩ := horig.1 hdir
            exact ⟨a2, b2, by rw [lookupA_setA_ne heq]; exact hl2, ha2, hb2⟩
        | redirect =>
          have hother := (hitems (e, RevKind.redirect, other, cap) (List.mem_cons_self _ _)).2 rfl
          refine ih _ _ (dirsInv_setA hinv (source_ok_of_mem hother _)) (keysNodup_setA hnd) ?_
          intro item2 h2
          have horig := hitems item2 (List.mem_cons_of_mem _ h2)
          refine ⟨fun hdir => ?_, horig.2⟩
          by_cases heq : item2.1 = e
          · obtain ⟨a2, b2, hl2, ha2, hb2⟩ := horig.1 hdir
            rw [heq] at hl2
            have hold : (lookupA dirs e).getD (none, none) = (some a2, some b2) := by
              rw [hl2]; rfl
            rw [heq, BothHub, hold, lookupA_setA_self]
            exact ⟨other, b2, rfl, hother, hb2⟩
          · obtain ⟨a2, b2, hl2, ha2, hb2⟩ := horig.1 hdir
            exact ⟨a2, b2, by rw [lookupA_setA_ne heq]; exact hl2, ha2, hb2⟩
      · rw [if_neg hcap]
        exact ih dirs outs hinv hnd (fun item2 h2 => hitems item2 (List.mem_cons_of_mem _ h2))

theorem bed_second_pass_inv (nmap : List (Node × List Node)) (artnet : List Node)
    (maxOut : ℤ) (hnm : NeighborsInv artnet nmap) :
    ∀ (viol : List Node) (dirs : DirMap) (outs : OutMap),
      (∀ v ∈ viol, v ∈ artnet) → DirsInv artnet dirs → keysNodup dirs →
      DirsInv artnet (bed_second_pass nmap artnet maxOut viol (dirs, outs)).1 ∧
        keysNodup (bed_second_pass nmap artnet maxOut viol (dirs, outs)).1 := by
  intro viol
  induction viol with
  | nil => intro dirs outs _ h1 h2; exact ⟨h1, h2⟩
  | cons ov rest ih =>
    intro dirs outs hsub hinv hnd
    simp only [bed_second_pass]
    have hitems : ItemsOk artnet dirs (stableSort (fun a b => b.2.2.2 < a.2.2.2)
        (collect_reversible dirs nmap artnet outs maxOut ov)) := by
      intro item h
      exact collect_reversible_spec dirs nmap artnet outs maxOut ov hnd
        (hsub ov (List.mem_cons_self _ _)) hnm item (mem_stableSort.mp h)
    obtain ⟨hi2, hn2⟩ := apply_reversible_inv maxOut ov artnet _ dirs outs hinv hnd hitems
    exact ih _ _ (fun v hv => hsub v (List.mem_cons_of_mem _ hv)) hi2 hn2

/-- Every edge that carries a direction in the output of
`balance_edge_directions` is sourced at an ArtNet node. -/
theorem balance_edge_directions_inv (edges : List Edge) (artnet : List Node) (maxOut : ℤ) :
    DirsInv artnet (balance_edge_directions edges artnet maxOut).edge_directions := by
  obtain ⟨h1, h2, h3⟩ := bed_first_pass_inv edges artnet
  have hviol : ∀ v ∈ (((bed_first_pass edges artnet).2.filter
      (fun p => decide (maxOut < p.2))).map (fun p => p.1)), v ∈ artnet := by
    intro v hv
    obtain ⟨p, hp, hpv⟩ := List.mem_map.mp hv
    rw [← hpv]
    exact h3 p (List.mem_of_mem_filter hp)
  have hsp := bed_second_pass_inv (node_to_artnet_neighbors edges artnet) artnet maxOut
    (node_to_artnet_neighbors_inv edges artnet) _ (bed_first_pass edges artnet).1
    (bed_first_pass edges artnet).2 hviol h1 h2
  exact hsp.1

/-! ## Direction-source invariant: second stage -/

theorem p2_try_options_inv (rowAmps : RowMap) (nodeOut : OutMap) (artnet : List Node)
    (dirs : DirMap) (e : Edge) (ds de : Option Node) (highY : ℚ) (highA : ℤ)
    (hinv : DirsInv artnet dirs) :
    ∀ (opts : List (ℤ × Node × ℚ × ℤ)), (∀ o ∈ opts, o.2.1 ∈ artnet) →
      ∀ m2, p2_try_options rowAmps nodeOut dirs e ds de highY highA opts = .ok (some m2) →
        DirsInv artnet m2 := by
  intro opts
  induction opts with
  | nil => intro _ m2 h; simp [p2_try_options] at h
  | cons o rest ih =>
    intro hopts m2 h
    obtain ⟨pri, alt, altRow, ara⟩ := o
    simp only [p2_try_options] at h
    by_cases hara : ara < highA
    · rw [if_pos hara] at h
      rcases h1 : adjustE rowAmps highY (fun v => v - 1) with er | ra1 <;> rw [h1] at h <;> (try dsimp only at h)
      · cases h
      rcases h2 : adjustE ra1 altRow (fun v => v + 1) with er | x2 <;> rw [h2] at h <;> (try dsimp only at h)
      · cases h
      rcases h3 : adjustKeyO nodeOut ds (fun v => v - 1) with er | no1 <;> rw [h3] at h <;> (try dsimp only at h)
      · cases h
      rcases h4 : adjustKeyO no1 alt (fun v => v + 1) with er | x4 <;> rw [h4] at h <;> (try dsimp only at h)
      · cases h
      injection h with h5
      injection h5 with h6
      rw [← h6]
      exact dirsInv_setA hinv
        (source_ok_of_mem (hopts (pri, alt, altRow, ara) (List.mem_cons_self _ _)) _)
    · rw [if_neg hara] at h
      exact ih (fun o ho => hopts o (List.mem_cons_of_mem _ ho)) m2 h

theorem p2_build_options_mem (rowAmps : RowMap) (nodeOut : OutMap) (neighborRows : List ℚ)
    (maxAmps maxOut : ℤ) (ds : Option Node) (alts : List Node) :
    ∀ o ∈ p2_build_options rowAmps nodeOut neighborRows maxAmps maxOut ds alts,
      o.2.1 ∈ alts := by
  intro o ho
  obtain ⟨alt, halt, hfm⟩ := List.mem_filterMap.mp ho
  by_cases h1 : some alt = ds
  · rw [if_pos h1] at hfm; cases hfm
  · rw [if_neg h1] at hfm
    by_cases h2 : getDA rowAmps alt.2.1 0 < maxAmps ∧ getDA nodeOut alt 0 < maxOut
    · rw [if_pos h2] at hfm
      rw [← Option.some.inj hfm]
      exact halt
    · rw [if_neg h2] at hfm; cases hfm

theorem p2_try_edges_inv (nmap : List (Node × List Node)) (artnet : List Node)
    (rowAmps : RowMap) (nodeOut : OutMap) (neighborRows : List ℚ) (maxAmps maxOut : ℤ)
    (dirs : DirMap) (highY : ℚ) (highA : ℤ) (hnm : NeighborsInv artnet nmap)
    (hinv : DirsInv artnet dirs) :
    ∀ (l : List Edge) (m2 : DirMap),
      p2_try_edges nmap rowAmps nodeOut neighborRows maxAmps maxOut dirs highY highA l =
        .ok (some m2) → DirsInv artnet m2 := by
  intro l
  induction l with
  | nil => intro m2 h; simp [p2_try_edges] at h
  | cons e rest ih =>
    intro m2 h
    simp only [p2_try_edges] at h
    rcases hd : (lookupA dirs e).getD (none, none) with ⟨ds, deo⟩
    rw [hd] at h
    rcases deo with _ | t
    · exact ih m2 h
    · dsimp only at h
      rcases hl : lookupA nmap t with _ | alts <;> rw [hl] at h <;> (try dsimp only at h)
      · exact ih m2 h
      rcases hopt : p2_try_options rowAmps nodeOut dirs e ds (some t) highY highA
          (stableSort (fun a b => b.1 < a.1)
            (p2_build_options rowAmps nodeOut neighborRows maxAmps maxOut ds alts))
        with er | od <;> rw [hopt] at h <;> (try dsimp only at h)
      · cases h
      rcases od with _ | d2
      · exact ih m2 h
      · injection h with h5
        injection h5 with h6
        rw [← h6]
        refine p2_try_options_inv rowAmps nodeOut artnet dirs e ds (some t) highY highA hinv _
          ?_ d2 hopt
        intro o ho
        exact neighbors_lookup_sub hnm hl o.2.1
          (p2_build_options_mem rowAmps nodeOut neighborRows maxAmps maxOut ds alts o
            (mem_stableSort.mp ho))

theorem p2_try_rows_inv (edges : List Edge) (nmap : List (Node × List Node))
    (artnet : List Node) (rowAmps : RowMap) (nodeOut : OutMap) (maxAmps maxOut : ℤ)
    (dirs : DirMap) (avg : ℚ) (maxRA : ℤ) (sortedRows : List ℚ)
    (hnm : NeighborsInv artnet nmap) (hinv : DirsInv artnet dirs) :
    ∀ (rows : List (ℚ × ℤ)) (m2 : DirMap),
      p2_try_rows edges nmap rowAmps nodeOut maxAmps maxOut dirs avg maxRA sortedRows rows =
        .ok (some m2) → DirsInv artnet m2 := by
  intro rows
  induction rows with
  | nil => intro m2 h; simp [p2_try_rows] at h
  | cons row rest ih =>
    intro m2 h
    obtain ⟨highY, highA⟩ := row
    simp only [p2_try_rows] at h
    by_cases hskip : (highA : ℚ) ≤ avg ∧ highA < maxRA
    · rw [if_pos hskip] at h
      exact ih m2 h
    · rw [if_neg hskip] at h
      rcases hedges : p2_try_edges nmap rowAmps nodeOut
          ((if 0 < sortedRows.findIdx (fun y => decide (y = highY)) then
            [sortedRows.getD (sortedRows.findIdx (fun y => decide (y = highY)) - 1) 0] else []) ++
          (if sortedRows.findIdx (fun y => decide (y = highY)) < sortedRows.length - 1 then
            [sortedRows.getD (sortedRows.findIdx (fun y => decide (y = highY)) + 1) 0] else []))
          maxAmps maxOut dirs highY highA
          (edges.filter (fun e =>
            match (lookupA dirs e).getD (none, none) with
            | (some s, _) => decide (s.2.1 = highY)
            | (none, _) => false)) with er | od <;> rw [hedges] at h <;> (try dsimp only at h)
      · cases h
      rcases od with _ | d2
      · exact ih m2 h
      · injection h with h5
        injection h5 with h6
        rw [← h6]
        exact p2_try_edges_inv nmap artnet rowAmps nodeOut _ maxAmps maxOut dirs highY highA
          hnm hinv _ d2 hedges

theorem phase2_try_inv (edges : List Edge) (nmap : List (Node × List Node))
    (artnet : List Node) (maxAmps maxOut : ℤ) (dirs : DirMap) (rowAmps : RowMap)
    (nodeOut : OutMap) (hnm : NeighborsInv artnet nmap) (hinv : DirsInv artnet dirs) :
    ∀ m2, phase2_try edges nmap maxAmps maxOut dirs rowAmps nodeOut = .ok (some m2) →
      DirsInv artnet m2 := by
  intro m2 h
  unfold phase2_try at h
  rcases hm : maxRow rowAmps with _ | maxRA <;> rw [hm] at h <;> (try dsimp only at h)
  · cases h
  · exact p2_try_rows_inv edges nmap artnet rowAmps nodeOut maxAmps maxOut dirs _ _ _
      hnm hinv _ m2 h

theorem p3_try_edges_inv (artnet : List Node) (rowAmps : RowMap) (nodeOut : OutMap)
    (maxAmps maxOut : ℤ) (dirs : DirMap) (highY : ℚ) (highA : ℤ)
    (hinv : DirsInv artnet dirs) :
    ∀ (l : List (Edge × Node × Option Node)) (m2 : DirMap),
      p3_try_edges artnet rowAmps nodeOut maxAmps maxOut dirs highY highA l =
        .ok (some m2) → DirsInv artnet m2 := by
  intro l
  induction l with
  | nil => intro m2 h; simp [p3_try_edges] at h
  | cons item rest ih =>
    intro m2 h
    obtain ⟨e, ds, de⟩ := item
    simp only [p3_try_edges] at h
    rcases de with _ | t
    · exact ih m2 h
    · dsimp only at h
      by_cases hmem : ds ∈ artnet ∧ t ∈ artnet
      · rw [if_pos hmem] at h
        by_cases hcond : getDA rowAmps t.2.1 0 < maxAmps ∧ getDA nodeOut t 0 < maxOut ∧
            getDA rowAmps t.2.1 0 < highA
        · rw [if_pos hcond] at h
          rcases h1 : adjustE rowAmps highY (fun v => v - 1) with er | ra1 <;> rw [h1] at h <;> (try dsimp only at h)
          · cases h
          rcases h2 : adjustE ra1 t.2.1 (fun v => v + 1) with er | x2 <;> rw [h2] at h <;> (try dsimp only at h)
          · cases h
          rcases h3 : adjustE nodeOut ds (fun v => v - 1) with er | no1 <;> rw [h3] at h <;> (try dsimp only at h)
          · cases h
          rcases h4 : adjustE no1 t (fun v => v + 1) with er | x4 <;> rw [h4] at h <;> (try dsimp only at h)
          · cases h
          injection h with h5
          injection h5 with h6
          rw [← h6]
          exact dirsInv_setA hinv (source_ok_of_mem hmem.2 _)
        · rw [if_neg hcond] at h
          exact ih m2 h
      · rw [if_neg hmem] at h
        exact ih m2 h

theorem p3_try_rows_inv (edges : List Edge) (artnet : List Node) (rowAmps : RowMap)
    (nodeOut : OutMap) (maxAmps maxOut : ℤ) (dirs : DirMap) (maxRA : ℤ)
    (hinv : DirsInv artnet dirs) :
    ∀ (rows : List (ℚ × ℤ)) (m2 : DirMap),
      p3_try_rows edges artnet rowAmps nodeOut maxAmps maxOut dirs maxRA rows =
        .ok (some m2) → DirsInv artnet m2 := by
  intro rows
  induction rows with
  | nil => intro m2 h; simp [p3_try_rows] at h
  | cons row rest ih =>
    intro m2 h
    obtain ⟨highY, highA⟩ := row
    simp only [p3_try_rows] at h
    by_cases hskip : highA < maxRA
    · rw [if_pos hskip] at h
      exact ih m2 h
    · rw [if_neg hskip] at h
      rcases hedges : p3_try_edges artnet rowAmps nodeOut maxAmps maxOut dirs highY highA
          (p3_collect edges dirs highY) with er | od <;> rw [hedges] at h <;> (try dsimp only at h)
      · cases h
      rcases od with _ | d2
      · exact ih m2 h
      · injection h with h5
        injection h5 with h6
        rw [← h6]
        exact p3_try_edges_inv artnet rowAmps nodeOut maxAmps maxOut dirs highY highA hinv
          _ d2 hedges

theorem phase3_try_inv (edges : List Edge) (artnet : List Node) (maxAmps maxOut : ℤ)
    (dirs : DirMap) (rowAmps : RowMap) (nodeOut : OutMap) (hinv : DirsInv artnet dirs) :
    ∀ m2, phase3_try edges artnet maxAmps maxOut dirs rowAmps nodeOut = .ok (some m2) →
      DirsInv artnet m2 := by
  intro m2 h
  unfold phase3_try at h
  rcases hm : maxRow rowAmps with _ | maxRA <;> rw [hm] at h <;> (try dsimp only at h)
  · cases h
  · exact p3_try_rows_inv edges artnet rowAmps nodeOut maxAmps maxOut dirs maxRA hinv _ m2 h

theorem p1row_try_alts_inv (rowAmps : RowMap) (nodeOut : OutMap) (artnet : List Node)
    (maxAmps maxOut : ℤ) (dirs : DirMap) (e : Edge) (ds de : Option Node) (rowY : Option ℚ)
    (hinv : DirsInv artnet dirs) :
    ∀ (alts : List Node), (∀ a ∈ alts, a ∈ artnet) →
      ∀ m2, p1row_try_alts rowAmps nodeOut maxAmps maxOut dirs e ds de rowY alts =
        .ok (some m2) → DirsInv artnet m2 := by
  intro alts
  induction alts with
  | nil => intro _ m2 h; simp [p1row_try_alts] at h
  | cons alt rest ih =>
    intro halts m2 h
    simp only [p1row_try_alts] at h
    by_cases hskip : some alt = ds
    · rw [if_pos hskip] at h
      exact ih (fun a ha => halts a (List.mem_cons_of_mem _ ha)) m2 h
    · rw [if_neg hskip] at h
      by_cases hcond : getDA rowAmps alt.2.1 0 < maxAmps ∧ getDA nodeOut alt 0 < maxOut
      · rw [if_pos hcond] at h
        rcases rowY with _ | ry
        · cases h
        · dsimp only at h
          rcases h1 : adjustE rowAmps ry (fun v => v - 1) with er | ra1 <;> rw [h1] at h <;> (try dsimp only at h)
          · cases h
          rcases h3 : adjustKeyO nodeOut ds (fun v => v - 1) with er | no1 <;> rw [h3] at h <;> (try dsimp only at h)
          · cases h
          rcases h4 : adjustKeyO no1 alt (fun v => v + 1) with er | x4 <;> rw [h4] at h <;> (try dsimp only at h)
          · cases h
          injection h with h5
          injection h5 with h6
          rw [← h6]
          exact dirsInv_setA hinv
            (source_ok_of_mem (halts alt (List.mem_cons_self _ _)) _)
      · rw [if_neg hcond] at h
        exact ih (fun a ha => halts a (List.mem_cons_of_mem _ ha)) m2 h

theorem p1row_try_edges_inv (nmap : List (Node × List Node)) (artnet : List Node)
    (rowAmps : RowMap) (nodeOut : OutMap) (maxAmps maxOut : ℤ) (dirs : DirMap)
    (rowY : Option ℚ) (hnm : NeighborsInv artnet nmap) (hinv : DirsInv artnet dirs) :
    ∀ (l : List Edge) (m2 : DirMap),
      p1row_try_edges nmap rowAmps nodeOut maxAmps maxOut dirs rowY l = .ok (some m2) →
        DirsInv artnet m2 := by
  intro l
  induction l with
  | nil => intro m2 h; simp [p1row_try_edges] at h
  | cons e rest ih =>
    intro m2 h
    simp only [p1row_try_edges] at h
    rcases hd : (lookupA dirs e).getD (none, none) with ⟨ds, deo⟩
    rw [hd] at h
    rcases deo with _ | t
    · exact ih m2 h
    · dsimp only at h
      rcases hl : lookupA nmap t with _ | alts <;> rw [hl] at h <;> (try dsimp only at h)
      · exact ih m2 h
      rcases halts : p1row_try_alts rowAmps nodeOut maxAmps maxOut dirs e ds (some t) rowY alts
        with er | od <;> rw [halts] at h <;> (try dsimp only at h)
      · cases h
      rcases od with _ | d2
      · exact ih m2 h
      · injection h with h5
        injection h5 with h6
        rw [← h6]
        exact p1row_try_alts_inv rowAmps nodeOut artnet maxAmps maxOut dirs e ds (some t)
          rowY hinv alts (fun a ha => neighbors_lookup_sub hnm hl a ha) d2 halts

theorem phase1_row_try_inv (edges : List Edge) (nmap : List (Node × List Node))
    (artnet : List Node) (maxAmps maxOut : ℤ) (dirs : DirMap) (rowAmps : RowMap)
    (nodeOut : OutMap) (rowViol : List (ℚ × ℤ)) (stRowY : Option ℚ)
    (stEIR : Option (List Edge)) (hnm : NeighborsInv artnet nmap)
    (hinv : DirsInv artnet dirs) :
    ∀ d2 ry eir, phase1_row_try edges nmap maxAmps maxOut dirs rowAmps nodeOut rowViol
      stRowY stEIR = .ok (some d2, ry, eir) → DirsInv artnet d2 := by
  intro d2 ry eir h
  unfold phase1_row_try at h
  rcases hleak : (match rowViol.getLast? with
    | some lastV =>
      ((some lastV.1 : Option ℚ), some (edges.filter (fun e =>
        match (lookupA dirs e).getD (none, none) with
        | (some s, _) => decide (s.2.1 = lastV.1)
        | (none, _) => false)))
    | none => (stRowY, stEIR)) with ⟨rY, eirO⟩
  rw [hleak] at h
  rcases eirO with _ | eir2
  · cases h
  · dsimp only at h
    rcases hedges : p1row_try_edges nmap rowAmps nodeOut maxAmps maxOut dirs rY eir2
      with er | od <;> rw [hedges] at h <;> (try dsimp only at h)
    · cases h
    rcases od with _ | dd
    · injection h with h5
      exact absurd (congrArg Prod.fst h5) (by simp)
    · injection h with h5
      have hdd : dd = d2 := Option.some.inj (congrArg Prod.fst h5)
      rw [hdd] at hedges
      exact p1row_try_edges_inv nmap artnet rowAmps nodeOut maxAmps maxOut dirs rY hnm hinv
        eir2 d2 hedges

theorem p1node_try_alts_inv (rowAmps : RowMap) (nodeOut : OutMap) (artnet : List Node)
    (maxAmps maxOut : ℤ) (dirs : DirMap) (e : Edge) (ds de : Option Node)
    (hinv : DirsInv artnet dirs) :
    ∀ (alts : List Node), (∀ a ∈ alts, a ∈ artnet) →
      ∀ m2, p1node_try_alts rowAmps nodeOut maxAmps maxOut dirs e ds de alts =
        .ok (some m2) → DirsInv artnet m2 := by
  intro alts
  induction alts with
  | nil => intro _ m2 h; simp [p1node_try_alts] at h
  | cons alt rest ih =>
    intro halts m2 h
    simp only [p1node_try_alts] at h
    by_cases hskip : some alt = ds
    · rw [if_pos hskip] at h
      exact ih (fun a ha => halts a (List.mem_cons_of_mem _ ha)) m2 h
    · rw [if_neg hskip] at h
      by_cases hcond : getDA rowAmps alt.2.1 0 < maxAmps ∧ getDA nodeOut alt 0 < maxOut
      · rw [if_pos hcond] at h
        rcases ds with _ | s
        · cases h
        · dsimp only at h
          rcases h1 : adjustE rowAmps s.2.1 (fun v => v - 1) with er | ra1 <;> rw [h1] at h <;> (try dsimp only at h)
          · cases h
          rcases h3 : adjustKeyO nodeOut (some s) (fun v => v - 1) with er | no1 <;>
            rw [h3] at h <;> (try dsimp only at h)
          · cases h
          rcases h4 : adjustKeyO no1 alt (fun v => v + 1) with er | x4 <;> rw [h4] at h <;> (try dsimp only at h)
          · cases h
          injection h with h5
          injection h5 with h6
          rw [← h6]
          exact dirsInv_setA hinv
            (source_ok_of_mem (halts alt (List.mem_cons_self _ _)) _)
      · rw [if_neg hcond] at h
        exact ih (fun a ha => halts a (List.mem_cons_of_mem _ ha)) m2 h

theorem p1node_try_edges_inv (nmap : List (Node × List Node)) (artnet : List Node)
    (rowAmps : RowMap) (nodeOut : OutMap) (maxAmps maxOut : ℤ) (dirs : DirMap)
    (hnm : NeighborsInv artnet nmap) (hinv : DirsInv artnet dirs) :
    ∀ (l : List Edge) (m2 : DirMap),
      p1node_try_edges nmap rowAmps nodeOut maxAmps maxOut dirs l = .ok (some m2) →
        DirsInv artnet m2 := by
  intro l
  induction l with
  | nil => intro m2 h; simp [p1node_try_edges] at h
  | cons e rest ih =>
    intro m2 h
    simp only [p1node_try_edges] at h
    rcases hd : (lookupA dirs e).getD (none, none) with ⟨ds, deo⟩
    rw [hd] at h
    rcases deo with _ | t
    · exact ih m2 h
    · dsimp only at h
      rcases hl : lookupA nmap t with _ | alts <;> rw [hl] at h <;> (try dsimp only at h)
      · exact ih m2 h
      rcases halts : p1node_try_alts rowAmps nodeOut maxAmps maxOut dirs e ds (some t) alts
        with er | od <;> rw [halts] at h <;> (try dsimp only at h)
      · cases h
      rcases od with _ | d2
      · exact ih m2 h
      · injection h with h5
        injection h5 with h6
        rw [← h6]
        exact p1node_try_alts_inv rowAmps nodeOut artnet maxAmps maxOut dirs e ds (some t)
          hinv alts (fun a ha => neighbors_lookup_sub hnm hl a ha) d2 halts

theorem p1node_try_nodes_inv (edges : List Edge) (nmap : List (Node × List Node))
    (artnet : List Node) (rowAmps : RowMap) (nodeOut : OutMap) (maxAmps maxOut : ℤ)
    (dirs : DirMap) (hnm : NeighborsInv artnet nmap) (hinv : DirsInv artnet dirs) :
    ∀ (l : List (Node × ℤ)) (m2 : DirMap),
      p1node_try_nodes edges nmap rowAmps nodeOut maxAmps maxOut dirs l = .ok (some m2) →
        DirsInv artnet m2 := by
  intro l
  induction l with
  | nil => intro m2 h; simp [p1node_try_nodes] at h
  | cons nv rest ih =>
    intro m2 h
    obtain ⟨node, cnt⟩ := nv
    simp only [p1node_try_nodes] at h
    rcases hedges : p1node_try_edges nmap rowAmps nodeOut maxAmps maxOut dirs
        (edges.filter (fun e =>
          decide (((lookupA dirs e).getD (none, none)).1 = some node)))
      with er | od <;> rw [hedges] at h <;> (try dsimp only at h)
    · cases h
    rcases od with _ | d2
    · exact ih m2 h
    · injection h with h5
      injection h5 with h6
      rw [← h6]
      exact p1node_try_edges_inv nmap artnet rowAmps nodeOut maxAmps maxOut dirs hnm hinv
        _ d2 hedges

theorem brp_tracking_dirs (st : BRPState) (ra : RowMap) :
    (brp_tracking st ra).dirs = st.dirs := by
  unfold brp_tracking
  rcases maxRow ra with _ | cur
  · rfl
  · dsimp only
    by_cases h1 : st.phase = 2 ∨ st.phase = 3
    · rw [if_pos h1]
      by_cases h2 : ltInf cur st.bestMaxRow
      · rw [if_pos h2]
      · rw [if_neg h2]
    · rw [if_neg h1]

theorem brp_step_inv (edges : List Edge) (artnet : List Node)
    (nmap : List (Node × List Node)) (maxAmps maxOut : ℤ) (st : BRPState) (b : Bool)
    (st2 : BRPState) (hnm : NeighborsInv artnet nmap) (hinv : DirsInv artnet st.dirs)
    (h : brp_step edges artnet nmap maxAmps maxOut st = .ok (b, st2)) :
    DirsInv artnet st2.dirs := by
  unfold brp_step at h
  dsimp only at h
  have hd1 : (brp_tracking st (calc_row_power edges st.dirs)).dirs = st.dirs :=
    brp_tracking_dirs st _
  have hinv1 : DirsInv artnet (brp_tracking st (calc_row_power edges st.dirs)).dirs := by
    rw [hd1]
    exact hinv
  by_cases hc1 : st.phase = 1 ∧
      (calc_row_power edges st.dirs).filter (fun p => decide (maxAmps < p.2)) = [] ∧
      (calc_node_outputs edges artnet st.dirs).filter (fun p => decide (maxOut < p.2)) = []
  · rw [if_pos hc1] at h
    injection Except.ok.inj h with hb h6
    rw [← h6]
    exact hinv
  · rw [if_neg hc1] at h
    by_cases hc2 : st.phase = 2 ∧ 30 ≤ st.itersNoImp
    · rw [if_pos hc2] at h
      injection Except.ok.inj h with hb h6
      rw [← h6]
      exact hinv
    · rw [if_neg hc2] at h
      by_cases hc3 : (brp_tracking st (calc_row_power edges st.dirs)).phase = 3 ∧
          50 ≤ (brp_tracking st (calc_row_power edges st.dirs)).itersNoImp ∧
          calc_row_power edges st.dirs ≠ []
      · rw [if_pos hc3] at h
        injection Except.ok.inj h with hb h6
        rw [← h6]
        exact hinv1
      · rw [if_neg hc3] at h
        by_cases hc4 : (brp_tracking st (calc_row_power edges st.dirs)).phase = 2
        · rw [if_pos hc4] at h
          rcases hp2 : phase2_try edges nmap maxAmps maxOut
              (brp_tracking st (calc_row_power edges st.dirs)).dirs
              (calc_row_power edges st.dirs) (calc_node_outputs edges artnet st.dirs)
            with er | od <;> rw [hp2] at h <;> (try dsimp only at h)
          · cases h
          rcases od with _ | d2
          · injection Except.ok.inj h with hb h6
            rw [← h6]
            exact hinv1
          · injection Except.ok.inj h with hb h6
            rw [← h6]
            exact phase2_try_inv edges nmap artnet maxAmps maxOut _ _ _ hnm hinv1 d2 hp2
        · rw [if_neg hc4] at h
          by_cases hc5 : (brp_tracking st (calc_row_power edges st.dirs)).phase = 3
          · rw [if_pos hc5] at h
            rcases hp3 : phase3_try edges artnet maxAmps maxOut
                (brp_tracking st (calc_row_power edges st.dirs)).dirs
                (calc_row_power edges st.dirs) (calc_node_outputs edges artnet st.dirs)
              with er | od <;> rw [hp3] at h <;> (try dsimp only at h)
            · cases h
            rcases od with _ | d2
            · injection Except.ok.inj h with hb h6
              rw [← h6]
              exact hinv1
            · injection Except.ok.inj h with hb h6
              rw [← h6]
              exact phase3_try_inv edges artnet maxAmps maxOut _ _ _ hinv1 d2 hp3
          · rw [if_neg hc5] at h
            rcases hrow : phase1_row_try edges nmap maxAmps maxOut
                (brp_tracking st (calc_row_power edges st.dirs)).dirs
                (calc_row_power edges st.dirs) (calc_node_outputs edges artnet st.dirs)
                ((calc_row_power edges st.dirs).filter (fun p => decide (maxAmps < p.2)))
                (brp_tracking st (calc_row_power edges st.dirs)).rowY
                (brp_tracking st (calc_row_power edges st.dirs)).edgesInRow
              with er | trip <;> rw [hrow] at h <;> (try dsimp only at h)
            · cases h
            obtain ⟨od, ry, eir⟩ := trip
            rcases od with _ | d2
            · dsimp only at h
              rcases hnode : p1node_try_nodes edges nmap (calc_row_power edges st.dirs)
                  (calc_node_outputs edges artnet st.dirs) maxAmps maxOut
                  (brp_tracking st (calc_row_power edges st.dirs)).dirs
                  ((calc_node_outputs edges artnet st.dirs).filter
                    (fun p => decide (maxOut < p.2)))
                with er | od2 <;> rw [hnode] at h <;> (try dsimp only at h)
              · cases h
              rcases od2 with _ | d2
              · injection Except.ok.inj h with hb h6
                rw [← h6]
                exact hinv1
              · injection Except.ok.inj h with hb h6
                rw [← h6]
                exact p1node_try_nodes_inv edges nmap artnet _ _ maxAmps maxOut _
                  hnm hinv1 _ d2 hnode
            · injection Except.ok.inj h with hb h6
              rw [← h6]
              exact phase1_row_try_inv edges nmap artnet maxAmps maxOut _ _ _ _ _ _
                hnm hinv1 d2 ry eir hrow

theorem brp_loop_inv (edges : List Edge) (artnet : List Node)
    (nmap : List (Node × List Node)) (maxAmps maxOut : ℤ) (maxIter : ℕ)
    (hnm : NeighborsInv artnet nmap) :
    ∀ (fuel : ℕ) (st stF : BRPState), DirsInv artnet st.dirs →
      brp_loop edges artnet nmap maxAmps maxOut maxIter fuel st = .ok stF →
      DirsInv artnet stF.dirs := by
  intro fuel
  induction fuel with
  | zero =>
    intro st stF hinv h
    injection h with h5
    rw [← h5]
    exact hinv
  | succ f ih =>
    intro st stF hinv h
    simp only [brp_loop] at h
    by_cases hit : st.iteration < maxIter
    · rw [if_pos hit] at h
      rcases hstep : brp_step edges artnet nmap maxAmps maxOut st with er | pr <;>
        rw [hstep] at h <;> (try dsimp only at h)
      · cases h
      · obtain ⟨bb, stN⟩ := pr
        have hstN := brp_step_inv edges artnet nmap maxAmps maxOut st bb stN hnm hinv hstep
        cases bb
        · exact ih stN stF hstN h
        · injection h with h5
          rw [← h5]
          exact hstN
    · rw [if_neg hit] at h
      injection h with h5
      rw [← h5]
      exact hinv

/-- The `balance_row_power_and_ports` loop preserves the hub-source
invariant whenever it returns normally. -/
theorem balance_row_power_and_ports_inv (edges : List Edge) (artnet : List Node)
    (dirs0 : DirMap) (maxAmps maxOut : ℤ) (maxIter : ℕ) (r : BRPResult)
    (hinv : DirsInv artnet dirs0)
    (h : balance_row_power_and_ports edges artnet dirs0 maxAmps maxOut maxIter = .ok r) :
    DirsInv artnet r.edge_directions := by
  unfold balance_row_power_and_ports at h
  rcases hloop : brp_loop edges artnet (neighbors_map_dedup edges artnet) maxAmps maxOut
      maxIter (maxIter + 3)
      { dirs := dirs0, phase := 1, bestMaxRow := none, itersNoImp := 0, iteration := 0,
        rowY := none, edgesInRow := none } with er | stF <;>
    rw [hloop] at h <;> (try dsimp only at h)
  · cases h
  · have hstF : DirsInv artnet stF.dirs :=
      brp_loop_inv edges artnet (neighbors_map_dedup edges artnet) maxAmps maxOut maxIter
        (neighbors_map_dedup_inv edges artnet) (maxIter + 3) _ stF hinv hloop
    rcases hm1 : maxRow (calc_row_power edges stF.dirs) with _ | v1 <;>
      rw [hm1] at h <;> (try dsimp only at h)
    · cases h
    · rcases hm2 : maxValsZ ((calc_node_outputs edges artnet stF.dirs).map (fun p => p.2))
        with _ | v2 <;> rw [hm2] at h <;> (try dsimp only at h)
      · cases h
      · injection h with h5
        rw [← h5]
        exact hstF


/-! ## Claim theorems -/

/-- C1: Coverage completeness.  When `optimize_artnet_distribution` is called
with no target count and returns normally, every input edge has at least one
endpoint among the returned ArtNet nodes, provided every edge's endpoints
are members of the input node list. -/
theorem C1_coverage_completeness (d : Node → Node → ℚ) (nodes : List Node)
    (edges : List Edge) (r : ArtnetResult)
    (hend : ∀ e ∈ edges, e.1 ∈ nodes ∧ e.2 ∈ nodes)
    (h : optimize_artnet_distribution d nodes edges none = .ok r) :
    ∀ e ∈ edges, covers r.artnet_nodes e := by
  unfold optimize_artnet_distribution at h
  dsimp only at h
  by_cases h1 : nodes = []
  · rw [if_pos h1] at h
    cases h
  · rw [if_neg h1] at h
    by_cases h2 : find_minimal_artnet_coverage nodes edges = []
    · rw [if_pos h2] at h
      cases h
    · rw [if_neg h2] at h
      rcases hm : maxQE ((nodes.map (fun n =>
            (n, find_nearest_artnet_node d n (find_minimal_artnet_coverage nodes edges)))).filterMap
          (fun p => p.2.2)) with er | mx <;> rw [hm] at h <;> (try dsimp only at h)
      · cases h
      · injection h with h5
        rw [← h5]
        exact fun e he =>
          find_minimal_artnet_coverage_covers nodes edges (fun e2 he2 => (hend e2 he2).1) e he

/-- C1 witness: the 2×3 grid satisfies the endpoint hypothesis and every one
of its seven edges is covered by the returned hubs. -/
theorem C1_coverage_completeness_witness :
    (∀ e ∈ gridEdges, e.1 ∈ gridNodes ∧ e.2 ∈ gridNodes) ∧
    ∀ e ∈ gridEdges, covers gridResult.artnet_nodes e :=
  ⟨by decide, C1_coverage_completeness d0 gridNodes gridEdges gridResult (by decide) (by rfl)⟩

/-- C2: Amended circuit power bound.  When every hub demand individually
fits the budget, every circuit produced by every routing strategy stays
within the budget: the power-limited splitter (shared by the
genetic-algorithm decoding, the simulated-annealing inline split and the
greedy angular clustering), the greedy strategy's nearest-neighbour route,
the ant-colony per-hub constructor for every outcome of its
pheromone-guided random choices, and the OR-Tools extraction whenever the
external solver honours the hard capacity dimension the code posts.  The
unqualified bound of the claim fails for an oversized hub (see the
counterexample). -/
theorem C2_circuit_power_bound (d : Node → Node → ℚ) (hub : Node) (pw : Node → ℕ)
    (maxP : ℕ) (nodes : List Node) (h : ∀ n ∈ nodes, pw n ≤ maxP) :
    (∀ c ∈ split_into_circuits pw maxP nodes, circuit_power pw c ≤ maxP) ∧
    (nearest_neighbor_route d hub nodes pw maxP).power ≤ maxP ∧
    (∀ sel : List Node → ℕ, ∀ hubIdx : ℕ,
      ∀ c ∈ aco_build_circuits d pw maxP sel hub hubIdx nodes,
        circuit_power pw c.route ≤ maxP) ∧
    (∀ len_of : List Node → ℚ, ∀ hubIdx : ℕ, ∀ vroutes : List (List Node),
      (∀ route ∈ vroutes, circuit_power pw route ≤ maxP) →
      ∀ c ∈ ortools_extract_circuits pw hub hubIdx len_of vroutes,
        circuit_power pw c.route ≤ maxP) :=
  ⟨split_into_circuits_bound pw maxP nodes h,
    nearest_neighbor_route_bound d hub nodes pw maxP,
    fun sel hubIdx => aco_build_circuits_bound d pw maxP sel hub hubIdx nodes h,
    fun len_of hubIdx vroutes hcap =>
      ortools_extract_circuits_bound pw maxP hub hubIdx len_of vroutes hcap⟩

/-- C2 witness: four 600 W hubs against the 1800 W budget satisfy the
demand hypothesis and all four bounds. -/
theorem C2_circuit_power_bound_witness :
    (∀ n ∈ c2nodes, c2pw n ≤ 1800) ∧
    ((∀ c ∈ split_into_circuits c2pw 1800 c2nodes, circuit_power c2pw c ≤ 1800) ∧
      (nearest_neighbor_route d0 soloHub c2nodes c2pw 1800).power ≤ 1800 ∧
      (∀ sel : List Node → ℕ, ∀ hubIdx : ℕ,
        ∀ c ∈ aco_build_circuits d0 c2pw 1800 sel soloHub hubIdx c2nodes,
          circuit_power c2pw c.route ≤ 1800) ∧
      (∀ len_of : List Node → ℚ, ∀ hubIdx : ℕ, ∀ vroutes : List (List Node),
        (∀ route ∈ vroutes, circuit_power c2pw route ≤ 1800) →
        ∀ c ∈ ortools_extract_circuits c2pw soloHub hubIdx len_of vroutes,
          circuit_power c2pw c.route ≤ 1800)) :=
  ⟨by decide, C2_circuit_power_bound d0 soloHub c2pw 1800 c2nodes (by decide)⟩

/-- C2 counterexample: `split_into_circuits` emits the circuit `[soloNode]`
whose aggregate power 1920 W exceeds the 1800 W limit, refuting the claim
for demand mappings with an oversized hub. -/
theorem C2_circuit_power_bound_counterexample :
    ∃ c ∈ split_into_circuits soloPw 1800 [soloNode], 1800 < circuit_power soloPw c := by
  decide

/-- C3: Reported coverage is wrong under truncation.  With target count 1 on
the 2×3 grid the truncated hub set covers only 3 of the 7 edges
(300/7 ≈ 42.9 %), yet the returned statistics report 100 % coverage: the
source computes `coverage_percentage` as `len(nodes)/len(nodes) * 100`. -/
theorem C3_coverage_percentage_bug :
    optimize_artnet_distribution d0 gridNodes gridEdges (some 1) = .ok gridResult1 ∧
    gridResult1.coverage_stats.coverage_percentage = 100 ∧
    spec_edge_coverage_percentage gridResult1.artnet_nodes gridEdges = 300 / 7 := by
  refine ⟨rfl, ?_, ?_⟩
  · have h1 : gridResult1.coverage_stats.coverage_percentage =
        ((gridNodes.length : ℚ) / (gridNodes.length : ℚ)) * 100 := rfl
    rw [h1]
    norm_num [gridNodes]
  · have ha : gridResult1.artnet_nodes = [((1 : ℚ), (0 : ℚ), (0 : ℚ))] := by decide
    have hc : gridEdges.countP
        (fun e => decide (∃ h ∈ [((1 : ℚ), (0 : ℚ), (0 : ℚ))], incident h e)) = 3 := by
      decide
    unfold spec_edge_coverage_percentage
    rw [ha, hc]
    norm_num [gridEdges]

/-- C4: `balance_row_power_and_ports` does not always return normally: on
the five-edge star (port violations but no row violations) the dedented
redirect loop reads `edges_in_row` before any assignment and the call raises
UnboundLocalError on its first iteration. -/
theorem C4_balance_row_power_unbound_local :
    balance_row_power_and_ports starEdges starHubs starDirs 20 4 1000 =
      .error PyError.unboundLocal := rfl

/-- C5: Hub-source invariant.  Every direction entry produced by
`balance_edge_directions` records a source that is absent or an ArtNet hub,
and every phase of `balance_row_power_and_ports` preserves this, so the
final direction map satisfies it as well: a non-hub node is never a data
source. -/
theorem C5_hub_source_invariant (edges : List Edge) (artnet : List Node)
    (maxOut0 maxAmps maxOut : ℤ) (maxIter : ℕ) (r : BRPResult)
    (h : balance_row_power_and_ports edges artnet
        (balance_edge_directions edges artnet maxOut0).edge_directions
        maxAmps maxOut maxIter = .ok r) :
    DirsInv artnet (balance_edge_directions edges artnet maxOut0).edge_directions ∧
    DirsInv artnet r.edge_directions :=
  ⟨balance_edge_directions_inv edges artnet maxOut0,
    balance_row_power_and_ports_inv edges artnet _ maxAmps maxOut maxIter r
      (balance_edge_directions_inv edges artnet maxOut0) h⟩

/-- C5 witness: the one-edge input runs the full two-stage pipeline to a
normal return and both direction maps satisfy the invariant. -/
theorem C5_hub_source_invariant_witness :
    balance_row_power_and_ports pairEdges pairHubs
        (balance_edge_directions pairEdges pairHubs 4).edge_directions 20 4 0 =
      .ok pairResult ∧
    (DirsInv pairHubs (balance_edge_directions pairEdges pairHubs 4).edge_directions ∧
      DirsInv pairHubs pairResult.edge_directions) :=
  ⟨by rfl, C5_hub_source_invariant pairEdges pairHubs 4 20 4 0 pairResult (by rfl)⟩

/-- C6: A hub whose demand alone exceeds the 1800 W budget is silently
dropped by the greedy router: the returned circuit list is empty instead of
containing the hub as its own over-limit single-node circuit. -/
theorem C6_oversized_hub_dropped :
    1800 < soloPw soloNode ∧
    greedy_circuits d0 d0 [soloHub] [soloNode] soloPw 1800 = [] := by
  decide

/-- C7: Route monotonicity under 2-opt.  For every circuit list, the list
returned by `solve_with_2opt_improvement` pairs each input circuit with an
output circuit whose recorded length is no larger and whose route is a
permutation of the input route. -/
theorem C7_two_opt_monotone (d : Node → Node → ℚ) (pw : Node → ℕ) (maxP : ℕ)
    (circuits : List Circuit) :
    List.Forall₂ (fun c c2 => c2.length ≤ c.length ∧ List.Perm c2.route c.route)
      circuits (solve_with_two_opt_improvement d circuits pw maxP) :=
  solve_with_two_opt_improvement_forall d pw maxP circuits

/-- C9: Amended duplicate-edge treatment.  Two parallel edges between the
same node pair count separately toward the hub's output tally (2), the row
load (2) and the power demand (240 W), but the Coverage Planner's uncovered
set and the direction dictionary collapse them to a single entry. -/
theorem C9_duplicate_edges :
    getDA (balance_edge_directions dupEdges [dupA] 4).artnet_output_counts dupA 0 = 2 ∧
    getDA (calc_row_power dupEdges
      (balance_edge_directions dupEdges [dupA] 4).edge_directions) 0 0 = 2 ∧
    lookupA (calculate_node_power_requirements dupEdges [dupA]
      (some (balance_edge_directions dupEdges [dupA] 4).edge_directions)) dupA = some 240 ∧
    (balance_edge_directions dupEdges [dupA] 4).edge_directions.length = 1 ∧
    (pyDedup dupEdges).length = 1 := by
  decide

/-- C9 counterexample: for two parallel duplicate edges the greedy planner's
best-cover scan sees a single unit of coverage (the uncovered set is
`set(self.edges)`), and the direction dictionary holds a single entry for
both duplicates — they are not independent units of coverage or direction. -/
theorem C9_duplicate_edges_counterexample :
    best_cover_node dupNodes [] (pyDedup dupEdges) = (some dupA, 1) ∧
    (balance_edge_directions dupEdges [dupA] 4).edge_directions.length = 1 := by
  decide

/-- C10: The supply-point candidate generation succeeds for every
`positions_per_edge ≥ 2` (four sides of that many candidates each) and
raises ZeroDivisionError for `positions_per_edge = 1`, for every nonempty
node list. -/
theorem C10_hub_positions_two_required (nodes : List Node) (n : ℕ) (off : ℚ)
    (hne : nodes ≠ []) :
    (2 ≤ n → ∃ ls, optimize_hub_position_candidates nodes n off = .ok ls ∧
      ls.length = 4 ∧ ∀ l ∈ ls, l.length = n) ∧
    optimize_hub_position_candidates nodes 1 off = .error .zeroDivision :=
  ⟨fun hn => optimize_hub_position_candidates_ok nodes n off hne hn,
    optimize_hub_position_candidates_one nodes off hne⟩

/-- C10 witness: the two-node bounding box with three positions per side. -/
theorem C10_hub_positions_two_required_witness :
    c10nodes ≠ [] ∧
    ((2 ≤ 3 → ∃ ls, optimize_hub_position_candidates c10nodes 3 2 = .ok ls ∧
        ls.length = 4 ∧ ∀ l ∈ ls, l.length = 3) ∧
      optimize_hub_position_candidates c10nodes 1 2 = .error .zeroDivision) :=
  ⟨by decide, C10_hub_positions_two_required c10nodes 3 2 (by decide)⟩

end LightNet
